import Mathlib

/-!
# FlowGraph: the node activation and signal-propagation core

A shallow embedding of `Source/Flow/Private/Nodes/FlowNode.cpp`.

* A node is a record of the fields the member functions read and write.
* A member function is a function on `Run`, the node together with the
  chronological list of the calls the function made to code outside this file.
* The virtual hooks whose bodies are not in this file (`OnActivate`,
  `ExecuteInput`, `Cleanup`), the owning asset's services and the field
  deserialisation are parameters collected in `Env`; each receives the node as
  it is at the moment of the call and returns the node as the callee leaves it.
* The build switches `UE_BUILD_SHIPPING` and `WITH_EDITOR` are parameters too.
* `GetFlowAsset()` and `GetWorld()` are taken to be non-null: every function
  modelled here except `LoadInstance` and `IsInputConnected` dereferences them
  without a test.
* A pointer to a node is the node itself, a null pointer is `none`; two
  pointers are equal when the nodes are (nodes carry a unique id).
-/

namespace FlowGraph

/-! ## Data model -/

/-- Modelled from the spec: a name (`FName`, declared by the engine). Names are
compared as strings; the engine's case folding is not modelled. -/
abbrev FName := String

/-- Modelled from the spec: the stable unique identifier of a node (`FGuid`). -/
abbrev FGuid := Nat

/-- Modelled from the spec: a reading of a clock (`FApp::GetCurrentTime`,
`UWorld::GetTimeSeconds`). Readings are only stored, never computed with. -/
abbrev FTimeStamp := Nat

/-- Modelled from the spec: the type of a node, compared by `GetClass() == Class`
(`UClass`, declared by the engine). -/
abbrev UClass := Nat

/-- Modelled from the spec: a pin, identified by its name (`FFlowPin`, declared
in `Nodes/FlowPin.h`). -/
structure FFlowPin where
  PinName : FName
deriving DecidableEq, Repr

/-- Modelled from the spec: the pin built from an 8-bit number, named by the
decimal digits of the number (`FFlowPin(const uint8&)`, declared in
`Nodes/FlowPin.h`). -/
def FFlowPin.ofUInt8 (i : Nat) : FFlowPin := { PinName := Nat.repr i }

/-- Modelled from the spec: the target of a connection, a node id and the name
of one of its input pins (`FConnectedPin`). -/
structure FConnectedPin where
  NodeGuid : FGuid
  PinName : FName
deriving DecidableEq, Repr

/-- Modelled from the spec: the lifecycle stage of a node (`EFlowNodeState`). -/
inductive EFlowNodeState where
  | NeverActivated
  | Active
  | Completed
  | Aborted
deriving DecidableEq, Repr

/-- Modelled from the spec: the signal mode of a node (`EFlowSignalMode`). -/
inductive EFlowSignalMode where
  | Enabled
  | Disabled
  | PassThrough
deriving DecidableEq, Repr

/-- Modelled from the spec: the finish policy of the owning asset
(`EFlowFinishPolicy`). -/
inductive EFlowFinishPolicy where
  | Abort
  | Complete
deriving DecidableEq, Repr

/-- Modelled from the spec: the activation type stored in a pin record
(`EFlowPinActivationType`); the two enumerators are those this file names. -/
inductive EFlowPinActivationType where
  | Default
  | PassThrough
deriving DecidableEq, Repr

/-- Modelled from the spec: one entry of a pin's activation log
(`FPinRecord(Time, ActivationType)`). -/
structure FPinRecord where
  Time : FTimeStamp
  ActivationType : EFlowPinActivationType
deriving DecidableEq, Repr

/-- Modelled from the spec: the saved state of one node (`FFlowNodeSaveData`),
the node id and an uninterpreted byte buffer. -/
structure FFlowNodeSaveData where
  NodeGuid : FGuid
  NodeData : List Nat
deriving DecidableEq, Repr

/-- The fields of `UFlowNode` that the functions of this file read or write.
`Connections`, `InputRecords` and `OutputRecords` are `TMap`s, kept as
association lists in insertion order. -/
structure FlowNode where
  NodeGuid : FGuid
  InputPins : List FFlowPin
  OutputPins : List FFlowPin
  Connections : List (FName × FConnectedPin)
  SignalMode : EFlowSignalMode
  ActivationState : EFlowNodeState
  ActivatedGameTime : FTimeStamp
  InputRecords : List (FName × List FPinRecord)
  OutputRecords : List (FName × List FPinRecord)
  /-- The class of the object, as `GetClass()` returns it. -/
  Class : UClass := 0
deriving DecidableEq, Repr

/-- A call that leaves this file: a virtual hook, a service of the owning
asset, the editor's graph observer, or the log. -/
inductive Event where
  | OnActivate
  | ExecuteInput (PinName : FName)
  | Cleanup
  | OnLoad
  | OnPassThrough
  | LogError (Message : String)
  | LogNote (Message : String)
  | OnInputTriggered (PinIndex : Int)
  | OnOutputTriggered (PinIndex : Int)
  | AssetTriggerInput (NodeGuid : FGuid) (PinName : FName)
  | AssetFinishNode
  | AssetOnActivationStateLoaded
deriving DecidableEq, Repr

/-- Everything outside this file that the node's functions consult or call. A
hook or service maps the node at the moment of the call to the node as the
callee leaves it. -/
structure Env where
  /-- The blocks under `#if !UE_BUILD_SHIPPING` are compiled out when this is `true`. -/
  UE_BUILD_SHIPPING : Bool
  /-- The blocks under `#if WITH_EDITOR` are compiled in when this is `true`. -/
  WITH_EDITOR : Bool
  /-- The test `GEditor && UFlowAsset::GetFlowGraphInterface().IsValid()`. -/
  bGraphInterfaceValid : Bool
  /-- The setting `UFlowSettings::Get()->bLogOnSignalDisabled`. -/
  bLogOnSignalDisabled : Bool
  /-- The setting `UFlowSettings::Get()->bLogOnSignalPassthrough`. -/
  bLogOnSignalPassthrough : Bool
  /-- The policy `GetFlowAsset()->FinishPolicy`. -/
  FinishPolicy : EFlowFinishPolicy
  /-- The reading `GetWorld()->GetTimeSeconds()`. -/
  WorldTimeSeconds : FTimeStamp
  /-- The reading `FApp::GetCurrentTime()`. -/
  AppCurrentTime : FTimeStamp
  /-- The virtual hook `OnActivate()`. -/
  OnActivate : FlowNode → FlowNode
  /-- The virtual hook `ExecuteInput(PinName)`. -/
  ExecuteInput : FName → FlowNode → FlowNode
  /-- The virtual hook `Cleanup()`. -/
  Cleanup : FlowNode → FlowNode
  /-- The service `GetFlowAsset()->TriggerInput(NodeGuid, PinName)`. -/
  AssetTriggerInput : FGuid → FName → FlowNode → FlowNode
  /-- The service `GetFlowAsset()->FinishNode(this)`. -/
  AssetFinishNode : FlowNode → FlowNode
  /-- The service `GetFlowAsset()->OnActivationStateLoaded(this)`. -/
  AssetOnActivationStateLoaded : FlowNode → FlowNode
  /-- The call `Serialize(Ar)` reading from the byte buffer of a save record. -/
  Deserialize : List Nat → FlowNode → FlowNode

/-- The node and the calls made so far, oldest first. -/
structure Run where
  node : FlowNode
  trace : List Event

/-- Record a call that does not write the node (log, editor observer). -/
def Run.emit (e : Event) (r : Run) : Run :=
  { node := r.node, trace := r.trace ++ [e] }

/-- Record a call and let the callee act on the node. -/
def Run.call (e : Event) (callee : FlowNode → FlowNode) (r : Run) : Run :=
  { node := callee r.node, trace := r.trace ++ [e] }

/-- Write fields of the node; no call is made. -/
def Run.modify (write : FlowNode → FlowNode) (r : Run) : Run :=
  { node := write r.node, trace := r.trace }

/-- A hook keeps a field when the field reads the same after the hook as
before it, on every node. -/
def Keeps {α : Type} (field : FlowNode → α) (hook : FlowNode → FlowNode) : Prop :=
  ∀ n : FlowNode, field (hook n) = field n

/-! ## Containers -/

/-- The test `TArray<FFlowPin>::Contains(const FName&)`: some pin has that name. -/
def PinsContain (Pins : List FFlowPin) (PinName : FName) : Bool :=
  Pins.any (fun Pin => Pin.PinName == PinName)

/-- The search `TArray<FFlowPin>::IndexOfByKey(const FName&)`: the index of the first pin
of that name, `INDEX_NONE` (-1) when there is none. -/
def IndexOfByKey (Pins : List FFlowPin) (PinName : FName) : Int :=
  match Pins.findIdx? (fun Pin => Pin.PinName == PinName) with
  | some i => (i : Int)
  | none => -1

/-- The test `TMap::Contains(Key)`: some entry has that key. -/
def MapContains {β : Type} (Map : List (FName × β)) (Key : FName) : Bool :=
  Map.any (fun Pair => Pair.1 == Key)

/-- The lookup `GetConnection(PinName)`, that is `Connections.FindRef(PinName)`: the
value stored under the key, a default-constructed value when there is none. -/
def GetConnection (Connections : List (FName × FConnectedPin)) (PinName : FName) :
    FConnectedPin :=
  match Connections.lookup PinName with
  | some Pin => Pin
  | none => { NodeGuid := 0, PinName := "None" }

/-- The update `Records.FindOrAdd(PinName).Add(Record)`: append the record to the log
stored under the pin name, creating the log when the name has none. -/
def AddPinRecord : List (FName × List FPinRecord) → FName → FPinRecord →
    List (FName × List FPinRecord)
  | [], PinName, Record => [(PinName, [Record])]
  | (Key, Records) :: Rest, PinName, Record =>
    if Key = PinName then (Key, Records ++ [Record]) :: Rest
    else (Key, Records) :: AddPinRecord Rest PinName Record

/-! ## Pins -/

/-- The loop `for (uint8 i = FirstNumber; i <= LastNumber; i++) Pins.Emplace(i)`
shared by `SetNumberedInputPins` and `SetNumberedOutputPins`. The counter is an
8-bit unsigned integer, so `i++` is addition modulo 256. One unit of fuel pays
for one evaluation of the loop test; `none` means the fuel ran out before the
test failed. -/
def NumberedPinsLoop : Nat → Nat → Nat → List FFlowPin → Option (List FFlowPin)
  | 0, _, _, _ => none
  | fuel + 1, i, LastNumber, Pins =>
    if i ≤ LastNumber then
      NumberedPinsLoop fuel ((i + 1) % 256) LastNumber (Pins ++ [FFlowPin.ofUInt8 i])
    else
      some Pins

/-- The function `UFlowNode::SetNumberedInputPins(FirstNumber, LastNumber)`. -/
def SetNumberedInputPins (fuel : Nat) (FirstNumber LastNumber : Nat) (n : FlowNode) :
    Option FlowNode :=
  (NumberedPinsLoop fuel FirstNumber LastNumber []).map
    (fun Pins => { n with InputPins := Pins })

/-- The function `UFlowNode::SetNumberedOutputPins(FirstNumber, LastNumber)`. -/
def SetNumberedOutputPins (fuel : Nat) (FirstNumber LastNumber : Nat) (n : FlowNode) :
    Option FlowNode :=
  (NumberedPinsLoop fuel FirstNumber LastNumber []).map
    (fun Pins => { n with OutputPins := Pins })

/-- The function `UFlowNode::IsOutputConnected(PinName)`. -/
def IsOutputConnected (n : FlowNode) (PinName : FName) : Bool :=
  PinsContain n.OutputPins PinName && MapContains n.Connections PinName

/-! ## Activation and propagation -/

/-- The state `Deactivate` writes: `Aborted` under the `Abort` policy,
`Completed` otherwise. -/
def TerminalState (Policy : EFlowFinishPolicy) : EFlowNodeState :=
  if Policy = EFlowFinishPolicy.Abort then EFlowNodeState.Aborted
  else EFlowNodeState.Completed

/-- The function `UFlowNode::Deactivate()`. -/
def Deactivate (env : Env) (r : Run) : Run :=
  let r1 :=
    if env.FinishPolicy = EFlowFinishPolicy.Abort then
      r.modify (fun n => { n with ActivationState := EFlowNodeState.Aborted })
    else
      r.modify (fun n => { n with ActivationState := EFlowNodeState.Completed })
  r1.call Event.Cleanup env.Cleanup

/-- The function `UFlowNode::Finish()`. -/
def Finish (env : Env) (r : Run) : Run :=
  (Deactivate env r).call Event.AssetFinishNode env.AssetFinishNode

/-- The function `UFlowNode::TriggerOutput(PinName, bFinish, ActivationType)`. -/
def TriggerOutput (env : Env) (PinName : FName) (bFinish : Bool)
    (ActivationType : EFlowPinActivationType) (r : Run) : Run :=
  -- clean up node, if needed
  let r1 := if bFinish then Finish env r else r
  let r2 :=
    if env.UE_BUILD_SHIPPING then r1
    else if PinsContain r1.node.OutputPins PinName then
      -- record for debugging, even if nothing is connected to this pin
      let Record : FPinRecord := { Time := env.AppCurrentTime, ActivationType := ActivationType }
      let r1a := r1.modify
        (fun n => { n with OutputRecords := AddPinRecord n.OutputRecords PinName Record })
      if env.WITH_EDITOR && env.bGraphInterfaceValid then
        r1a.emit (Event.OnOutputTriggered (IndexOfByKey r1a.node.OutputPins PinName))
      else r1a
    else
      r1.emit (Event.LogError ("Output Pin name " ++ PinName ++ " invalid"))
  -- call the next node
  if PinsContain r2.node.OutputPins PinName && MapContains r2.node.Connections PinName then
    let FlowPin := GetConnection r2.node.Connections PinName
    r2.call (Event.AssetTriggerInput FlowPin.NodeGuid FlowPin.PinName)
      (env.AssetTriggerInput FlowPin.NodeGuid FlowPin.PinName)
  else r2

/-- The function `UFlowNode::OnPassThrough_Implementation()`. The loop runs over the output
pins as they are when the loop starts. -/
def OnPassThrough_Implementation (env : Env) (r : Run) : Run :=
  -- trigger all connected outputs
  let r1 := r.node.OutputPins.foldl
    (fun acc OutputPin =>
      if MapContains acc.node.Connections OutputPin.PinName then
        TriggerOutput env OutputPin.PinName false EFlowPinActivationType.PassThrough acc
      else acc)
    r
  -- deactivate node, so it doesn't get saved to a new SaveGame
  Finish env r1

/-- The call `OnPassThrough()`: the call is recorded and dispatched to the
implementation of this file. -/
def OnPassThrough (env : Env) (r : Run) : Run :=
  OnPassThrough_Implementation env (r.emit Event.OnPassThrough)

/-- The function `UFlowNode::OnLoad_Implementation()`: empty. -/
def OnLoad_Implementation (r : Run) : Run := r

/-- The call `OnLoad()`: the call is recorded and dispatched to the implementation of
this file. -/
def OnLoad (r : Run) : Run :=
  OnLoad_Implementation (r.emit Event.OnLoad)

/-- The function `UFlowNode::TriggerInput(PinName, ActivationType)`. -/
def TriggerInput (env : Env) (PinName : FName)
    (ActivationType : EFlowPinActivationType) (r : Run) : Run :=
  -- `if (SignalMode == EFlowSignalMode::Disabled) { }` has an empty body
  if PinsContain r.node.InputPins PinName then
    let r1 :=
      if r.node.SignalMode = EFlowSignalMode.Enabled then
        let PreviousActivationState := r.node.ActivationState
        let r0 :=
          if PreviousActivationState ≠ EFlowNodeState.Active then
            r.call Event.OnActivate env.OnActivate
          else r
        r0.modify (fun n => { n with
          ActivationState := EFlowNodeState.Active
          ActivatedGameTime := env.WorldTimeSeconds })
      else r
    let r2 :=
      if env.UE_BUILD_SHIPPING then r1
      else
        -- record for debugging
        let Record : FPinRecord := { Time := env.AppCurrentTime, ActivationType := ActivationType }
        r1.modify
          (fun n => { n with InputRecords := AddPinRecord n.InputRecords PinName Record })
    let r3 :=
      if env.WITH_EDITOR && env.bGraphInterfaceValid then
        r2.emit (Event.OnInputTriggered (IndexOfByKey r2.node.InputPins PinName))
      else r2
    match r3.node.SignalMode with
    | EFlowSignalMode.Enabled =>
      r3.call (Event.ExecuteInput PinName) (env.ExecuteInput PinName)
    | EFlowSignalMode.Disabled =>
      if env.bLogOnSignalDisabled then
        r3.emit (Event.LogNote ("Node disabled while triggering input " ++ PinName))
      else r3
    | EFlowSignalMode.PassThrough =>
      let r4 :=
        if env.bLogOnSignalPassthrough then
          r3.emit (Event.LogNote ("Signal pass-through on triggering input " ++ PinName))
        else r3
      OnPassThrough env r4
  else
    if env.UE_BUILD_SHIPPING then r
    else r.emit (Event.LogError ("Input Pin name " ++ PinName ++ " invalid"))

/-! ## Save and restore -/

/-- The function `UFlowNode::LoadInstance(NodeRecord)`. The owning asset exists,
so the test `if (UFlowAsset* FlowAsset = GetFlowAsset())` succeeds. -/
def LoadInstance (env : Env) (NodeRecord : FFlowNodeSaveData) (r : Run) : Run :=
  let r1 := r.modify (env.Deserialize NodeRecord.NodeData)
  let r2 := r1.call Event.AssetOnActivationStateLoaded env.AssetOnActivationStateLoaded
  match r2.node.SignalMode with
  | EFlowSignalMode.Enabled => OnLoad r2
  | EFlowSignalMode.Disabled =>
    -- designer doesn't want to execute this node's logic at all, so we kill it
    Finish env (r2.emit (Event.LogNote "Signal disabled while loading Flow Node from SaveGame"))
  | EFlowSignalMode.PassThrough =>
    OnPassThrough env
      (r2.emit (Event.LogNote "Signal pass-through on loading Flow Node from SaveGame"))

/-- The function `UFlowNode::ResetRecords()`. -/
def ResetRecords (env : Env) (r : Run) : Run :=
  let r1 := r.modify (fun n => { n with ActivationState := EFlowNodeState.NeverActivated })
  if env.UE_BUILD_SHIPPING then r1
  else r1.modify (fun n => { n with InputRecords := [], OutputRecords := [] })

/-- The mode dispatch that ends `UFlowNode::LoadInstance`: the `switch` on
`SignalMode` entered once the fields are read and the asset is notified. -/
def LoadInstanceDispatch (env : Env) (r : Run) : Run :=
  match r.node.SignalMode with
  | EFlowSignalMode.Enabled => OnLoad r
  | EFlowSignalMode.Disabled =>
    Finish env (r.emit (Event.LogNote "Signal disabled while loading Flow Node from SaveGame"))
  | EFlowSignalMode.PassThrough =>
    OnPassThrough env
      (r.emit (Event.LogNote "Signal pass-through on loading Flow Node from SaveGame"))

/-! ## Pin lists -/

/-- The function `UFlowNode::AddInputPins(Pins)`. -/
def AddInputPins (Pins : List FFlowPin) (n : FlowNode) : FlowNode :=
  Pins.foldl (fun n Pin => { n with InputPins := n.InputPins ++ [Pin] }) n

/-- The function `UFlowNode::AddOutputPins(Pins)`. -/
def AddOutputPins (Pins : List FFlowPin) (n : FlowNode) : FlowNode :=
  Pins.foldl (fun n Pin => { n with OutputPins := n.OutputPins ++ [Pin] }) n

/-! ## The graph -/

/-- Modelled from the spec: the owning graph (`UFlowAsset`, declared in
`FlowAsset.h`), of which this file reads the node registry `Nodes`, a `TMap`
from node id to node pointer, kept as an association list. -/
structure UFlowAsset where
  Nodes : List (FGuid × Option FlowNode)

/-- Modelled from the spec: the graph's lookup by id (`UFlowAsset::GetNode`,
declared in `FlowAsset.h`): the pointer stored under the id, null when the id
is unknown. -/
def UFlowAsset.GetNode (Asset : UFlowAsset) (Guid : FGuid) : Option FlowNode :=
  match Asset.Nodes.lookup Guid with
  | some Node => Node
  | none => none

/-- The insertion `TSet::Emplace(Element)`: an element already in the set
leaves it as it is, a new one comes last in iteration order. -/
def SetEmplace {α : Type} [DecidableEq α] (Set : List α) (Element : α) : List α :=
  if Element ∈ Set then Set else Set ++ [Element]

/-- The insertion `TArray::AddUnique(Item)`: the item is appended unless the
array holds it already. -/
def AddUnique {α : Type} [DecidableEq α] (Array : List α) (Item : α) : List α :=
  if Item ∈ Array then Array else Array ++ [Item]

/-- The function `UFlowNode::GetConnectedNodes()`. -/
def GetConnectedNodes (Asset : UFlowAsset) (n : FlowNode) : List (Option FlowNode) :=
  n.Connections.foldl
    (fun Result Connection => SetEmplace Result (Asset.GetNode Connection.2.NodeGuid))
    []

/-- The function `UFlowNode::IsInputConnected(PinName)`, on the node `n` whose
`GetFlowAsset()` is `Asset`. -/
def IsInputConnected (Asset : Option UFlowAsset) (n : FlowNode) (PinName : FName) : Bool :=
  match Asset with
  | some FlowAsset =>
    FlowAsset.Nodes.any (fun Pair =>
      match Pair.2 with
      | some Node =>
        Node.Connections.any (fun Connection =>
          Connection.2.NodeGuid == n.NodeGuid && Connection.2.PinName == PinName)
      | none => false)
  | none => false

/-- The function `UFlowNode::RecursiveFindNodesByClass(Node, Class, Depth, OutNodes)`;
the result is `OutNodes` on return. One unit of fuel pays for one level of
the call stack; `none` means the fuel ran out before the call returned. -/
def RecursiveFindNodesByClass (Asset : UFlowAsset) :
    Nat → Option FlowNode → UClass → Nat → List FlowNode → Option (List FlowNode)
  | 0, _, _, _, _ => none
  | _ + 1, none, _, _, OutNodes => some OutNodes
  | fuel + 1, some Node, Class, Depth, OutNodes =>
    -- Record the node if it is the desired type
    let OutNodes1 := if Node.Class = Class then AddUnique OutNodes Node else OutNodes
    if OutNodes1.length = Depth then some OutNodes1
    else
      -- Recurse
      (GetConnectedNodes Asset Node).foldl
        (fun Out ConnectedNode =>
          match Out with
          | some OutNodes2 =>
            RecursiveFindNodesByClass Asset fuel ConnectedNode Class Depth OutNodes2
          | none => none)
        (some OutNodes1)

/-- The node is one of the graph: some id of the registry leads to it. -/
def UFlowAsset.Holds (Asset : UFlowAsset) (n : FlowNode) : Prop :=
  ∃ Guid : FGuid, Asset.GetNode Guid = some n

/-- The graph has no cycle: along every connection from a node of the graph
to the node it leads to, the rank goes down. -/
def UFlowAsset.RankedBy (Asset : UFlowAsset) (rank : FlowNode → Nat) : Prop :=
  ∀ n t : FlowNode, Asset.Holds n → some t ∈ GetConnectedNodes Asset n → rank t < rank n

/-- The lookup `Records.FindRef(PinName)`, by which `GetPinRecords` reads a
log: the records stored under the pin name, none when the name has no entry. -/
def FindRecords (Records : List (FName × List FPinRecord)) (PinName : FName) :
    List FPinRecord :=
  match Records.lookup PinName with
  | some Log => Log
  | none => []

/-- The terminal states of the lifecycle: `Completed` and `Aborted`. -/
def IsTerminal (State : EFlowNodeState) : Prop :=
  State = EFlowNodeState.Completed ∨ State = EFlowNodeState.Aborted

/-! ## Observations on a trace -/

/-- The deliveries requested from the owning asset, oldest first: the pairs
(target node id, target pin name) of the `TriggerInput` calls in the trace. -/
def Deliveries : List Event → List (FGuid × FName)
  | [] => []
  | Event.AssetTriggerInput NodeGuid PinName :: Rest => (NodeGuid, PinName) :: Deliveries Rest
  | _ :: Rest => Deliveries Rest

/-- The names of the output pins that have an entry in `Connections`, in the
order of `OutputPins`. -/
def ConnectedOutputNames (n : FlowNode) : List FName :=
  (n.OutputPins.filter (fun Pin => MapContains n.Connections Pin.PinName)).map
    (fun Pin => Pin.PinName)

/-! ## Sample configurations -/

/-- An environment of a non-shipping editor build with the graph observer
attached and both log settings on, in which every hook and service leaves the
node as it is. -/
def quietEnv : Env :=
  { UE_BUILD_SHIPPING := false
    WITH_EDITOR := true
    bGraphInterfaceValid := true
    bLogOnSignalDisabled := true
    bLogOnSignalPassthrough := true
    FinishPolicy := EFlowFinishPolicy.Complete
    WorldTimeSeconds := 7
    AppCurrentTime := 11
    OnActivate := fun n => n
    ExecuteInput := fun _ n => n
    Cleanup := fun n => n
    AssetTriggerInput := fun _ _ n => n
    AssetFinishNode := fun n => n
    AssetOnActivationStateLoaded := fun n => n
    Deserialize := fun _ n => n }

/-- The node N of the propagation scenario: input `In`, output `Out` connected
to input `In` of the node with id 2, never activated, with the given mode. -/
def nodeN (Mode : EFlowSignalMode) : FlowNode :=
  { NodeGuid := 1
    InputPins := [{ PinName := "In" }]
    OutputPins := [{ PinName := "Out" }]
    Connections := [("Out", { NodeGuid := 2, PinName := "In" })]
    SignalMode := Mode
    ActivationState := EFlowNodeState.NeverActivated
    ActivatedGameTime := 0
    InputRecords := []
    OutputRecords := [] }

/-- The sample node in `Enabled` mode before its first input. -/
def freshRun : Run := { node := nodeN EFlowSignalMode.Enabled, trace := [] }

/-- The sample node in `Enabled` mode, already `Active`. -/
def activeRun : Run :=
  { node := { nodeN EFlowSignalMode.Enabled with ActivationState := EFlowNodeState.Active }
    trace := [] }

/-- The sample node in `Disabled` mode with one record in each log. -/
def recordedRun : Run :=
  { node := { nodeN EFlowSignalMode.Disabled with
      ActivationState := EFlowNodeState.Completed
      InputRecords := [("In", [{ Time := 3, ActivationType := EFlowPinActivationType.Default }])]
      OutputRecords :=
        [("Out", [{ Time := 4, ActivationType := EFlowPinActivationType.Default }])] }
    trace := [] }

/-- The sample node in `Enabled` mode after it has finished (`Completed`). -/
def completedRun : Run :=
  { node := { nodeN EFlowSignalMode.Enabled with ActivationState := EFlowNodeState.Completed }
    trace := [] }

/-- The sample node with a second output pin `Dead` that has no connection. -/
def deadEndRun : Run :=
  { node := { nodeN EFlowSignalMode.Enabled with
      OutputPins := [{ PinName := "Out" }, { PinName := "Dead" }] }
    trace := [] }

/-- An environment like `quietEnv`, of a shipping build. -/
def shippingEnv : Env := { quietEnv with UE_BUILD_SHIPPING := true, WITH_EDITOR := false }

/-- A node whose only connection leads from its output `Out` to its own input
`In`. -/
def selfLoopNode : FlowNode :=
  { nodeN EFlowSignalMode.Enabled with Connections := [("Out", { NodeGuid := 1, PinName := "In" })] }

/-- The graph made of `selfLoopNode` alone. -/
def selfLoopAsset : UFlowAsset := { Nodes := [(1, some selfLoopNode)] }

/-- A node without connections, of the given id and class. -/
def leafNode (Guid : FGuid) (NodeClass : UClass) : FlowNode :=
  { NodeGuid := Guid
    InputPins := [{ PinName := "In" }]
    OutputPins := [{ PinName := "Out" }]
    Connections := []
    SignalMode := EFlowSignalMode.Enabled
    ActivationState := EFlowNodeState.NeverActivated
    ActivatedGameTime := 0
    InputRecords := []
    OutputRecords := []
    Class := NodeClass }

/-- A node of class 0 and id 1 whose outputs `Left` and `Right` lead to the
nodes with ids 2 and 3. -/
def forkNode : FlowNode :=
  { leafNode 1 0 with
    OutputPins := [{ PinName := "Left" }, { PinName := "Right" }]
    Connections := [("Left", { NodeGuid := 2, PinName := "In" }),
      ("Right", { NodeGuid := 3, PinName := "In" })] }

/-- The acyclic graph of `forkNode` and two leaves of class 1. -/
def forkAsset : UFlowAsset :=
  { Nodes := [(1, some forkNode), (2, some (leafNode 2 1)), (3, some (leafNode 3 1))] }

/-- A rank for `forkAsset`: the leaves below the fork. -/
def forkRank (n : FlowNode) : Nat := if n = forkNode then 1 else 0

/-- A node of class 0 whose output `Out` leads to the node with the given id. -/
def linkNode (Guid Target : FGuid) : FlowNode :=
  { leafNode Guid 0 with Connections := [("Out", { NodeGuid := Target, PinName := "In" })] }

/-- The graph of two nodes of class 0 connected in a cycle: 1 to 2, 2 to 1. -/
def cycleAsset : UFlowAsset :=
  { Nodes := [(1, some (linkNode 1 2)), (2, some (linkNode 2 1))] }

/-! ## Basic facts -/

@[simp]
theorem Run.emit_node (e : Event) (r : Run) : (r.emit e).node = r.node := rfl

@[simp]
theorem Run.emit_trace (e : Event) (r : Run) : (r.emit e).trace = r.trace ++ [e] := rfl

@[simp]
theorem Run.call_node (e : Event) (f : FlowNode → FlowNode) (r : Run) :
    (r.call e f).node = f r.node := rfl

@[simp]
theorem Run.call_trace (e : Event) (f : FlowNode → FlowNode) (r : Run) :
    (r.call e f).trace = r.trace ++ [e] := rfl

@[simp]
theorem Run.modify_node (f : FlowNode → FlowNode) (r : Run) :
    (r.modify f).node = f r.node := rfl

@[simp]
theorem Run.modify_trace (f : FlowNode → FlowNode) (r : Run) :
    (r.modify f).trace = r.trace := rfl

theorem PinsContain_iff (Pins : List FFlowPin) (PinName : FName) :
    PinsContain Pins PinName = true ↔ ∃ Pin ∈ Pins, Pin.PinName = PinName := by
  simp [PinsContain, List.any_eq_true]

theorem PinsContain_eq_false (Pins : List FFlowPin) (PinName : FName)
    (h : ∀ Pin ∈ Pins, Pin.PinName ≠ PinName) : PinsContain Pins PinName = false := by
  cases hc : PinsContain Pins PinName with
  | false => rfl
  | true =>
    obtain ⟨Pin, hmem, heq⟩ := (PinsContain_iff Pins PinName).mp hc
    exact absurd heq (h Pin hmem)

theorem MapContains_iff {β : Type} (Map : List (FName × β)) (Key : FName) :
    MapContains Map Key = true ↔ ∃ Entry ∈ Map, Entry.1 = Key := by
  simp [MapContains, List.any_eq_true]

theorem MapContains_of_lookup {β : Type} (Map : List (FName × β)) (Key : FName) (Value : β)
    (h : Map.lookup Key = some Value) : MapContains Map Key = true := by
  induction Map with
  | nil => simp at h
  | cons Head Rest ih =>
    obtain ⟨k, v⟩ := Head
    by_cases hk : Key = k
    · subst hk
      simp [MapContains]
    · have hne : (Key == k) = false := by simpa using hk
      rw [List.lookup_cons, hne] at h
      have := ih h
      simp only [MapContains, List.any_cons] at this ⊢
      rw [this, Bool.or_true]

theorem GetConnection_of_lookup (Connections : List (FName × FConnectedPin)) (PinName : FName)
    (Target : FConnectedPin) (h : Connections.lookup PinName = some Target) :
    GetConnection Connections PinName = Target := by
  simp [GetConnection, h]

theorem Deliveries_append (a b : List Event) :
    Deliveries (a ++ b) = Deliveries a ++ Deliveries b := by
  induction a with
  | nil => rfl
  | cons e Rest ih => cases e <;> simp [Deliveries, ih]

theorem Deactivate_node (env : Env) (r : Run) :
    (Deactivate env r).node =
      env.Cleanup { r.node with ActivationState := TerminalState env.FinishPolicy } := by
  unfold Deactivate TerminalState
  by_cases hp : env.FinishPolicy = EFlowFinishPolicy.Abort <;> simp [hp]

theorem Deactivate_trace (env : Env) (r : Run) :
    (Deactivate env r).trace = r.trace ++ [Event.Cleanup] := by
  unfold Deactivate
  by_cases hp : env.FinishPolicy = EFlowFinishPolicy.Abort <;> simp [hp]

theorem Finish_node (env : Env) (r : Run) :
    (Finish env r).node = env.AssetFinishNode
      (env.Cleanup { r.node with ActivationState := TerminalState env.FinishPolicy }) := by
  simp [Finish, Deactivate_node]

theorem Finish_trace (env : Env) (r : Run) :
    (Finish env r).trace = r.trace ++ [Event.Cleanup, Event.AssetFinishNode] := by
  simp [Finish, Deactivate_trace]

/-- When `Cleanup` and `FinishNode` keep the activation state, `Finish`
leaves the node in the terminal state of the policy. -/
theorem Finish_ActivationState (env : Env) (r : Run)
    (hcleanup : Keeps FlowNode.ActivationState env.Cleanup)
    (hfinish : Keeps FlowNode.ActivationState env.AssetFinishNode) :
    (Finish env r).node.ActivationState = TerminalState env.FinishPolicy := by
  rw [Finish_node, hfinish _, hcleanup _]

/-! ### The pass-through loop -/

theorem TriggerOutput_Connections (env : Env) (PinName : FName)
    (ActivationType : EFlowPinActivationType) (r : Run)
    (hconn : ∀ G P, Keeps FlowNode.Connections (env.AssetTriggerInput G P)) :
    (TriggerOutput env PinName false ActivationType r).node.Connections =
      r.node.Connections := by
  unfold TriggerOutput
  cases hs : env.UE_BUILD_SHIPPING <;> cases he : env.WITH_EDITOR <;>
    cases hv : env.bGraphInterfaceValid <;>
    cases hc : PinsContain r.node.OutputPins PinName <;>
    cases hm : MapContains r.node.Connections PinName <;>
    simp [hc, hm, hconn _ _ _]

theorem TriggerOutput_OutputPins (env : Env) (PinName : FName)
    (ActivationType : EFlowPinActivationType) (r : Run)
    (hpins : ∀ G P, Keeps FlowNode.OutputPins (env.AssetTriggerInput G P)) :
    (TriggerOutput env PinName false ActivationType r).node.OutputPins =
      r.node.OutputPins := by
  unfold TriggerOutput
  cases hs : env.UE_BUILD_SHIPPING <;> cases he : env.WITH_EDITOR <;>
    cases hv : env.bGraphInterfaceValid <;>
    cases hc : PinsContain r.node.OutputPins PinName <;>
    cases hm : MapContains r.node.Connections PinName <;>
    simp [hc, hm, hpins _ _ _]

/-- A connected output pin: the deliveries of `TriggerOutput` without finish
are those made before, followed by the one to the pin's connection. -/
theorem TriggerOutput_Deliveries (env : Env) (PinName : FName)
    (ActivationType : EFlowPinActivationType) (r : Run)
    (hc : PinsContain r.node.OutputPins PinName = true)
    (hm : MapContains r.node.Connections PinName = true) :
    Deliveries (TriggerOutput env PinName false ActivationType r).trace =
      Deliveries r.trace ++
        [((GetConnection r.node.Connections PinName).NodeGuid,
          (GetConnection r.node.Connections PinName).PinName)] := by
  unfold TriggerOutput
  cases hs : env.UE_BUILD_SHIPPING <;> cases he : env.WITH_EDITOR <;>
    cases hv : env.bGraphInterfaceValid <;>
    simp [hc, hm, Deliveries_append, Deliveries]

/-- The loop of `OnPassThrough_Implementation`, which tests every output pin
against `Connections` as it goes, is the sequence of `TriggerOutput` calls for
the pins connected at the start, when deliveries keep `Connections`. -/
theorem passThroughLoop_eq (env : Env)
    (hconn : ∀ G P, Keeps FlowNode.Connections (env.AssetTriggerInput G P))
    (Pins : List FFlowPin) :
    ∀ acc : Run,
      Pins.foldl
          (fun acc OutputPin =>
            if MapContains acc.node.Connections OutputPin.PinName then
              TriggerOutput env OutputPin.PinName false EFlowPinActivationType.PassThrough acc
            else acc)
          acc =
        ((Pins.filter (fun Pin => MapContains acc.node.Connections Pin.PinName)).map
            (fun Pin => Pin.PinName)).foldl
          (fun acc Out => TriggerOutput env Out false EFlowPinActivationType.PassThrough acc)
          acc := by
  induction Pins with
  | nil => intro acc; rfl
  | cons Pin Rest ih =>
    intro acc
    cases hm : MapContains acc.node.Connections Pin.PinName
    · simp only [List.foldl_cons, hm, Bool.false_eq_true, if_false, List.filter_cons]
      exact ih acc
    · simp only [List.foldl_cons, hm, if_true, List.filter_cons, List.map_cons]
      rw [ih, TriggerOutput_Connections env _ _ _ hconn]

/-- The sequence of `TriggerOutput` calls over pin names that are all carried
by output pins and all connected: it keeps `OutputPins` and `Connections`, and
its deliveries are, in order, those to the connections of the names. -/
theorem triggerOutputs_Deliveries (env : Env)
    (hconn : ∀ G P, Keeps FlowNode.Connections (env.AssetTriggerInput G P))
    (hpins : ∀ G P, Keeps FlowNode.OutputPins (env.AssetTriggerInput G P))
    (Names : List FName) :
    ∀ acc : Run,
      (∀ Out ∈ Names, PinsContain acc.node.OutputPins Out = true ∧
        MapContains acc.node.Connections Out = true) →
      Deliveries (Names.foldl
          (fun acc Out => TriggerOutput env Out false EFlowPinActivationType.PassThrough acc)
          acc).trace =
        Deliveries acc.trace ++ Names.map (fun Out =>
          ((GetConnection acc.node.Connections Out).NodeGuid,
            (GetConnection acc.node.Connections Out).PinName)) := by
  induction Names with
  | nil => intro acc _; simp
  | cons Out Rest ih =>
    intro acc h
    have hOut := h Out (List.mem_cons_self _ _)
    have hC := TriggerOutput_Connections env Out EFlowPinActivationType.PassThrough acc hconn
    have hP := TriggerOutput_OutputPins env Out EFlowPinActivationType.PassThrough acc hpins
    rw [List.foldl_cons, ih, TriggerOutput_Deliveries env Out _ acc hOut.1 hOut.2, hC]
    · simp
    · intro Out2 hmem
      rw [hC, hP]
      exact h Out2 (List.mem_cons_of_mem _ hmem)

theorem ConnectedOutputNames_spec (n : FlowNode) :
    ∀ Out ∈ ConnectedOutputNames n,
      PinsContain n.OutputPins Out = true ∧ MapContains n.Connections Out = true := by
  intro Out hmem
  simp only [ConnectedOutputNames, List.mem_map, List.mem_filter] at hmem
  obtain ⟨Pin, ⟨hPin, hm⟩, rfl⟩ := hmem
  exact ⟨(PinsContain_iff _ _).mpr ⟨Pin, hPin, rfl⟩, hm⟩

/-- In `PassThrough` mode, on one of its input pins, `TriggerInput` is
`OnPassThrough` entered on a run that has the output pins and connections of
the start and no further delivery. -/
theorem TriggerInput_PassThrough_entry (env : Env) (PinName : FName)
    (ActivationType : EFlowPinActivationType) (r : Run)
    (hmode : r.node.SignalMode = EFlowSignalMode.PassThrough)
    (hc : PinsContain r.node.InputPins PinName = true) :
    ∃ before : Run,
      TriggerInput env PinName ActivationType r = OnPassThrough env before ∧
        before.node.OutputPins = r.node.OutputPins ∧
        before.node.Connections = r.node.Connections ∧
        before.node.ActivationState = r.node.ActivationState ∧
        Deliveries before.trace = Deliveries r.trace := by
  unfold TriggerInput
  cases hs : env.UE_BUILD_SHIPPING <;> cases he : env.WITH_EDITOR <;>
    cases hv : env.bGraphInterfaceValid <;> cases hl : env.bLogOnSignalPassthrough <;>
    simp only [hmode, hc, if_true, if_false, Bool.false_and, Bool.true_and, Bool.and_false,
      Bool.and_true, Bool.and_self, Bool.false_eq_true, reduceCtorEq, Run.modify_node,
      Run.emit_node] <;>
    exact ⟨_, rfl, rfl, rfl, rfl, by simp [Deliveries_append, Deliveries]⟩

/-! ## Claims -/

/-- C10: `IsOutputConnected(PinName)` is true exactly when some pin of
`OutputPins` has that name and `Connections` has an entry keyed by it. -/
theorem IsOutputConnected_iff (n : FlowNode) (PinName : FName) :
    IsOutputConnected n PinName = true ↔
      (∃ Pin ∈ n.OutputPins, Pin.PinName = PinName) ∧
        (∃ Entry ∈ n.Connections, Entry.1 = PinName) := by
  unfold IsOutputConnected
  rw [Bool.and_eq_true, PinsContain_iff, MapContains_iff]

/-- C9: whatever the previous activation state, `Deactivate` writes the
terminal state of the finish policy (`Aborted` under `Abort`, `Completed`
otherwise) and then makes exactly one call, `Cleanup`, which receives the node
with that state already written; `Finish` does the same and then makes exactly
one further call, the asset's `FinishNode`, on the node `Cleanup` returned. -/
theorem Deactivate_Finish_terminal (env : Env) (r : Run) :
    (Deactivate env r).node =
        env.Cleanup { r.node with ActivationState :=
          if env.FinishPolicy = EFlowFinishPolicy.Abort then EFlowNodeState.Aborted
          else EFlowNodeState.Completed } ∧
      (Deactivate env r).trace = r.trace ++ [Event.Cleanup] ∧
      (Finish env r).node = env.AssetFinishNode (Deactivate env r).node ∧
      (Finish env r).trace = r.trace ++ [Event.Cleanup, Event.AssetFinishNode] :=
  ⟨Deactivate_node env r, Deactivate_trace env r, rfl, Finish_trace env r⟩

/-- C4: for every signal mode, a pin name that no input pin carries makes
`TriggerInput` return with the node unchanged in every field (activation
state and both record maps included); the only call it makes is the error
report of non-shipping builds, so none of `OnActivate`, `ExecuteInput`,
`OnPassThrough` is invoked. -/
theorem TriggerInput_unknown_pin (env : Env) (PinName : FName)
    (ActivationType : EFlowPinActivationType) (r : Run)
    (hpin : ∀ Pin ∈ r.node.InputPins, Pin.PinName ≠ PinName) :
    (TriggerInput env PinName ActivationType r).node = r.node ∧
      (TriggerInput env PinName ActivationType r).trace =
        r.trace ++ (if env.UE_BUILD_SHIPPING then []
          else [Event.LogError ("Input Pin name " ++ PinName ++ " invalid")]) := by
  have hc := PinsContain_eq_false _ _ hpin
  unfold TriggerInput
  cases hs : env.UE_BUILD_SHIPPING <;> simp [hc]

/-- Witness for C4: the pin name `Bogus` on the sample node. -/
theorem TriggerInput_unknown_pin_witness :
    (∀ Pin ∈ (nodeN EFlowSignalMode.Enabled).InputPins, Pin.PinName ≠ "Bogus") ∧
      (TriggerInput quietEnv "Bogus" EFlowPinActivationType.Default
        { node := nodeN EFlowSignalMode.Enabled, trace := [] }).node =
          nodeN EFlowSignalMode.Enabled ∧
      (TriggerInput quietEnv "Bogus" EFlowPinActivationType.Default
        { node := nodeN EFlowSignalMode.Enabled, trace := [] }).trace =
          [] ++ (if quietEnv.UE_BUILD_SHIPPING then []
            else [Event.LogError ("Input Pin name " ++ "Bogus" ++ " invalid")]) :=
  ⟨by decide,
    TriggerInput_unknown_pin quietEnv "Bogus" EFlowPinActivationType.Default
      { node := nodeN EFlowSignalMode.Enabled, trace := [] } (by decide)⟩

/-- C1: on a node whose signal mode is `Disabled`, for every pin name and
every activation type, `TriggerInput` leaves `ActivationState` as it was and
calls neither `OnActivate` nor `ExecuteInput`. -/
theorem TriggerInput_Disabled_no_activation (env : Env) (PinName : FName)
    (ActivationType : EFlowPinActivationType) (r : Run)
    (hmode : r.node.SignalMode = EFlowSignalMode.Disabled) :
    (TriggerInput env PinName ActivationType r).node.ActivationState =
        r.node.ActivationState ∧
      ∃ made : List Event,
        (TriggerInput env PinName ActivationType r).trace = r.trace ++ made ∧
          Event.OnActivate ∉ made ∧ ∀ Pin : FName, Event.ExecuteInput Pin ∉ made := by
  unfold TriggerInput
  cases hc : PinsContain r.node.InputPins PinName <;> cases hs : env.UE_BUILD_SHIPPING <;>
    cases he : env.WITH_EDITOR <;> cases hg : env.bGraphInterfaceValid <;>
    cases hl : env.bLogOnSignalDisabled <;> simp [hmode]

/-- Witness for C1: the sample node in `Disabled` mode, triggered on `In`. -/
theorem TriggerInput_Disabled_no_activation_witness :
    (nodeN EFlowSignalMode.Disabled).SignalMode = EFlowSignalMode.Disabled ∧
      ((TriggerInput quietEnv "In" EFlowPinActivationType.Default
          { node := nodeN EFlowSignalMode.Disabled, trace := [] }).node.ActivationState =
          (nodeN EFlowSignalMode.Disabled).ActivationState ∧
        ∃ made : List Event,
          (TriggerInput quietEnv "In" EFlowPinActivationType.Default
            { node := nodeN EFlowSignalMode.Disabled, trace := [] }).trace = [] ++ made ∧
            Event.OnActivate ∉ made ∧ ∀ Pin : FName, Event.ExecuteInput Pin ∉ made) :=
  ⟨rfl,
    TriggerInput_Disabled_no_activation quietEnv "In" EFlowPinActivationType.Default
      { node := nodeN EFlowSignalMode.Disabled, trace := [] } rfl⟩

/-- C2: on an `Enabled` node triggered on one of its input pins,
(a) from `NeverActivated`, `TriggerInput` calls `OnActivate` exactly once, first
of all, and `ExecuteInput` last, on a node whose state is already `Active`
(provided `OnActivate` leaves the signal mode alone, which the dispatch reads
afterwards);
(b) from `Active`, `TriggerInput` does not call `OnActivate`, and `ExecuteInput`
again receives the node in state `Active`.
In both cases the calls in between are notifications of the graph observer,
and the state is still `Active` on return when `ExecuteInput` keeps it. -/
theorem TriggerInput_Enabled_activation (env : Env) (PinName : FName)
    (ActivationType : EFlowPinActivationType) (r : Run)
    (hmode : r.node.SignalMode = EFlowSignalMode.Enabled)
    (hpin : ∃ Pin ∈ r.node.InputPins, Pin.PinName = PinName) :
    (r.node.ActivationState = EFlowNodeState.NeverActivated →
      Keeps FlowNode.SignalMode env.OnActivate →
      ∃ (atDispatch : FlowNode) (observed : List Event),
        TriggerInput env PinName ActivationType r =
          { node := env.ExecuteInput PinName atDispatch
            trace := r.trace ++ [Event.OnActivate] ++ observed ++
              [Event.ExecuteInput PinName] } ∧
        atDispatch.ActivationState = EFlowNodeState.Active ∧
        (∀ e ∈ observed, ∃ i, e = Event.OnInputTriggered i) ∧
        (Keeps FlowNode.ActivationState (env.ExecuteInput PinName) →
          (TriggerInput env PinName ActivationType r).node.ActivationState =
            EFlowNodeState.Active)) ∧
    (r.node.ActivationState = EFlowNodeState.Active →
      ∃ (atDispatch : FlowNode) (observed : List Event),
        TriggerInput env PinName ActivationType r =
          { node := env.ExecuteInput PinName atDispatch
            trace := r.trace ++ observed ++ [Event.ExecuteInput PinName] } ∧
        atDispatch.ActivationState = EFlowNodeState.Active ∧
        (∀ e ∈ observed, ∃ i, e = Event.OnInputTriggered i) ∧
        (Keeps FlowNode.ActivationState (env.ExecuteInput PinName) →
          (TriggerInput env PinName ActivationType r).node.ActivationState =
            EFlowNodeState.Active)) := by
  have hc := (PinsContain_iff _ _).mpr hpin
  constructor
  · intro hstate hkeep
    have hm : (env.OnActivate r.node).SignalMode = EFlowSignalMode.Enabled := by
      rw [hkeep r.node, hmode]
    unfold TriggerInput
    cases hs : env.UE_BUILD_SHIPPING <;> cases he : env.WITH_EDITOR <;>
      cases hg : env.bGraphInterfaceValid <;>
      simp only [hmode, hc, hstate, hm, Run.call, Run.modify, Run.emit, if_true, if_false,
        Bool.false_and, Bool.true_and, Bool.and_false, Bool.and_true, ne_eq, reduceCtorEq,
        not_false_eq_true, Bool.false_eq_true]
    all_goals first
      | exact ⟨_, _, rfl, rfl, by simp, fun hk => by rw [hk]⟩
      | exact ⟨_, [], by rw [List.append_nil], rfl, by simp, fun hk => by rw [hk]⟩
  · intro hstate
    unfold TriggerInput
    cases hs : env.UE_BUILD_SHIPPING <;> cases he : env.WITH_EDITOR <;>
      cases hg : env.bGraphInterfaceValid <;>
      simp only [hmode, hc, hstate, Run.call, Run.modify, Run.emit, if_true, if_false,
        Bool.false_and, Bool.true_and, Bool.and_false, Bool.and_true, ne_eq, reduceCtorEq,
        not_false_eq_true, Bool.false_eq_true, not_true_eq_false]
    all_goals first
      | exact ⟨_, _, rfl, rfl, by simp, fun hk => by rw [hk]⟩
      | exact ⟨_, [], by rw [List.append_nil], rfl, by simp, fun hk => by rw [hk]⟩

/-- Witness for C2: the sample node before its first input, and the same node
already active, each triggered on `In`. -/
theorem TriggerInput_Enabled_activation_witness :
    (freshRun.node.SignalMode = EFlowSignalMode.Enabled ∧
      (∃ Pin ∈ freshRun.node.InputPins, Pin.PinName = "In") ∧
      freshRun.node.ActivationState = EFlowNodeState.NeverActivated ∧
      Keeps FlowNode.SignalMode quietEnv.OnActivate ∧
      ∃ (atDispatch : FlowNode) (observed : List Event),
        TriggerInput quietEnv "In" EFlowPinActivationType.Default freshRun =
          { node := quietEnv.ExecuteInput "In" atDispatch
            trace := freshRun.trace ++ [Event.OnActivate] ++ observed ++
              [Event.ExecuteInput "In"] } ∧
        atDispatch.ActivationState = EFlowNodeState.Active ∧
        (∀ e ∈ observed, ∃ i, e = Event.OnInputTriggered i) ∧
        (Keeps FlowNode.ActivationState (quietEnv.ExecuteInput "In") →
          (TriggerInput quietEnv "In" EFlowPinActivationType.Default
            freshRun).node.ActivationState = EFlowNodeState.Active)) ∧
    (activeRun.node.SignalMode = EFlowSignalMode.Enabled ∧
      (∃ Pin ∈ activeRun.node.InputPins, Pin.PinName = "In") ∧
      activeRun.node.ActivationState = EFlowNodeState.Active ∧
      ∃ (atDispatch : FlowNode) (observed : List Event),
        TriggerInput quietEnv "In" EFlowPinActivationType.Default activeRun =
          { node := quietEnv.ExecuteInput "In" atDispatch
            trace := activeRun.trace ++ observed ++ [Event.ExecuteInput "In"] } ∧
        atDispatch.ActivationState = EFlowNodeState.Active ∧
        (∀ e ∈ observed, ∃ i, e = Event.OnInputTriggered i) ∧
        (Keeps FlowNode.ActivationState (quietEnv.ExecuteInput "In") →
          (TriggerInput quietEnv "In" EFlowPinActivationType.Default
            activeRun).node.ActivationState = EFlowNodeState.Active)) :=
  ⟨⟨rfl, ⟨{ PinName := "In" }, by decide, rfl⟩, rfl, fun _ => rfl,
      (TriggerInput_Enabled_activation quietEnv "In" EFlowPinActivationType.Default freshRun
        rfl ⟨{ PinName := "In" }, by decide, rfl⟩).1 rfl (fun _ => rfl)⟩,
    ⟨rfl, ⟨{ PinName := "In" }, by decide, rfl⟩, rfl,
      (TriggerInput_Enabled_activation quietEnv "In" EFlowPinActivationType.Default activeRun
        rfl ⟨{ PinName := "In" }, by decide, rfl⟩).2 rfl⟩⟩

/-- C6: when the pin name is carried by an output pin and `Connections` maps
it to node `G`, pin `P`, `TriggerOutput` with `bFinish = false` asks the asset
for `TriggerInput(G, P)` exactly once, as its last call; the calls before it
are notifications of the graph observer, so no other delivery is made. -/
theorem TriggerOutput_delivers_once (env : Env) (PinName : FName)
    (ActivationType : EFlowPinActivationType) (r : Run) (G : FGuid) (P : FName)
    (hpin : ∃ Pin ∈ r.node.OutputPins, Pin.PinName = PinName)
    (hconn : r.node.Connections.lookup PinName = some { NodeGuid := G, PinName := P }) :
    ∃ observed : List Event,
      (TriggerOutput env PinName false ActivationType r).trace =
          r.trace ++ observed ++ [Event.AssetTriggerInput G P] ∧
        (∀ e ∈ observed, ∃ i, e = Event.OnOutputTriggered i) ∧
        Deliveries (TriggerOutput env PinName false ActivationType r).trace =
          Deliveries r.trace ++ [(G, P)] := by
  have hc := (PinsContain_iff _ _).mpr hpin
  have hm := MapContains_of_lookup _ _ _ hconn
  have hg := GetConnection_of_lookup _ _ _ hconn
  unfold TriggerOutput
  cases hs : env.UE_BUILD_SHIPPING <;> cases he : env.WITH_EDITOR <;>
    cases hv : env.bGraphInterfaceValid <;>
    simp only [hc, hm, hg, Run.call, Run.modify, Run.emit, if_true, if_false,
      Bool.false_and, Bool.true_and, Bool.and_false, Bool.and_true, Bool.and_self,
      Bool.false_eq_true]
  all_goals first
    | exact ⟨[_], rfl, by simp, by simp [Deliveries_append, Deliveries]⟩
    | exact ⟨[], by rw [List.append_nil], by simp, by simp [Deliveries_append, Deliveries]⟩

/-- Witness for C6: N with output `Out` connected to input `In` of node 2. -/
theorem TriggerOutput_delivers_once_witness :
    (∃ Pin ∈ freshRun.node.OutputPins, Pin.PinName = "Out") ∧
      freshRun.node.Connections.lookup "Out" = some { NodeGuid := 2, PinName := "In" } ∧
      ∃ observed : List Event,
        (TriggerOutput quietEnv "Out" false EFlowPinActivationType.Default freshRun).trace =
            freshRun.trace ++ observed ++ [Event.AssetTriggerInput 2 "In"] ∧
          (∀ e ∈ observed, ∃ i, e = Event.OnOutputTriggered i) ∧
          Deliveries
              (TriggerOutput quietEnv "Out" false EFlowPinActivationType.Default freshRun).trace =
            Deliveries freshRun.trace ++ [(2, "In")] :=
  ⟨⟨{ PinName := "Out" }, by decide, rfl⟩, by decide,
    TriggerOutput_delivers_once quietEnv "Out" EFlowPinActivationType.Default freshRun 2 "In"
      ⟨{ PinName := "Out" }, by decide, rfl⟩ (by decide)⟩

/-- C5, as the claim states it, fails: on the sample node no output pin is
named `Bogus`, yet `TriggerOutput` on `Bogus` with `bFinish = true` changes
`ActivationState` (from `NeverActivated` to `Completed`). -/
theorem TriggerOutput_unknown_pin_finish_counterexample :
    (∀ Pin ∈ freshRun.node.OutputPins, Pin.PinName ≠ "Bogus") ∧
      (TriggerOutput quietEnv "Bogus" true EFlowPinActivationType.Default
        freshRun).node.ActivationState ≠ freshRun.node.ActivationState := by
  decide

/-- C5, amended: for a pin name that no output pin carries, `TriggerOutput`
returns and delivers no signal. With `bFinish = false` the node is unchanged in
every field. With `bFinish = true` the node is first finished, and is left
exactly as `Finish` leaves it (the pin name being looked up after `Finish`,
whose hooks are taken not to touch `OutputPins`). Besides the two calls of
`Finish`, the only call made is the error report of non-shipping builds. -/
theorem TriggerOutput_unknown_pin (env : Env) (PinName : FName) (bFinish : Bool)
    (ActivationType : EFlowPinActivationType) (r : Run)
    (hpin : ∀ Pin ∈ r.node.OutputPins, Pin.PinName ≠ PinName)
    (hkeep : bFinish = true →
      Keeps FlowNode.OutputPins env.Cleanup ∧ Keeps FlowNode.OutputPins env.AssetFinishNode) :
    (TriggerOutput env PinName bFinish ActivationType r).node =
        (if bFinish then (Finish env r).node else r.node) ∧
      (TriggerOutput env PinName bFinish ActivationType r).trace =
        r.trace ++ (if bFinish then [Event.Cleanup, Event.AssetFinishNode] else []) ++
          (if env.UE_BUILD_SHIPPING then []
            else [Event.LogError ("Output Pin name " ++ PinName ++ " invalid")]) ∧
      Deliveries (TriggerOutput env PinName bFinish ActivationType r).trace =
        Deliveries r.trace := by
  have hc := PinsContain_eq_false _ _ hpin
  cases bFinish with
  | false =>
    unfold TriggerOutput
    cases hs : env.UE_BUILD_SHIPPING <;>
      simp [hc, Deliveries_append, Deliveries]
  | true =>
    obtain ⟨hC, hF⟩ := hkeep rfl
    have hpins : (Finish env r).node.OutputPins = r.node.OutputPins := by
      unfold Finish Deactivate
      by_cases hp : env.FinishPolicy = EFlowFinishPolicy.Abort <;>
        simp [hp, hF _, hC _]
    have htrace := Finish_trace env r
    unfold TriggerOutput
    cases hs : env.UE_BUILD_SHIPPING <;>
      simp [hc, hpins, htrace, Deliveries_append, Deliveries]

/-- Witness for C5 amended: the pin name `Bogus` on the sample node, with
`bFinish = true`. -/
theorem TriggerOutput_unknown_pin_witness :
    (∀ Pin ∈ freshRun.node.OutputPins, Pin.PinName ≠ "Bogus") ∧
      (Keeps FlowNode.OutputPins quietEnv.Cleanup ∧
        Keeps FlowNode.OutputPins quietEnv.AssetFinishNode) ∧
      (TriggerOutput quietEnv "Bogus" true EFlowPinActivationType.Default freshRun).node =
          (if true then (Finish quietEnv freshRun).node else freshRun.node) ∧
        (TriggerOutput quietEnv "Bogus" true EFlowPinActivationType.Default freshRun).trace =
          freshRun.trace ++ (if true then [Event.Cleanup, Event.AssetFinishNode] else []) ++
            (if quietEnv.UE_BUILD_SHIPPING then []
              else [Event.LogError ("Output Pin name " ++ "Bogus" ++ " invalid")]) ∧
        Deliveries
            (TriggerOutput quietEnv "Bogus" true EFlowPinActivationType.Default freshRun).trace =
          Deliveries freshRun.trace :=
  ⟨by decide, ⟨fun _ => rfl, fun _ => rfl⟩,
    TriggerOutput_unknown_pin quietEnv "Bogus" true EFlowPinActivationType.Default freshRun
      (by decide) (fun _ => ⟨fun _ => rfl, fun _ => rfl⟩)⟩

/-- C7: when the node's signal mode after deserialisation is `Disabled`,
`LoadInstance` ends with `ActivationState` terminal (`Aborted` under the `Abort`
policy, `Completed` otherwise) whatever the save record held, and its last call
notifies the asset through `FinishNode`. The asset's load notification is taken
not to touch the signal mode, `Cleanup` and `FinishNode` not to touch the
activation state. -/
theorem LoadInstance_Disabled_terminal (env : Env) (NodeRecord : FFlowNodeSaveData) (r : Run)
    (hmode : (env.Deserialize NodeRecord.NodeData r.node).SignalMode =
      EFlowSignalMode.Disabled)
    (hloaded : Keeps FlowNode.SignalMode env.AssetOnActivationStateLoaded)
    (hcleanup : Keeps FlowNode.ActivationState env.Cleanup)
    (hfinish : Keeps FlowNode.ActivationState env.AssetFinishNode) :
    (LoadInstance env NodeRecord r).node.ActivationState =
        (if env.FinishPolicy = EFlowFinishPolicy.Abort then EFlowNodeState.Aborted
          else EFlowNodeState.Completed) ∧
      (LoadInstance env NodeRecord r).trace =
        r.trace ++ [Event.AssetOnActivationStateLoaded,
          Event.LogNote "Signal disabled while loading Flow Node from SaveGame",
          Event.Cleanup, Event.AssetFinishNode] := by
  have hm : (env.AssetOnActivationStateLoaded
      (env.Deserialize NodeRecord.NodeData r.node)).SignalMode = EFlowSignalMode.Disabled := by
    rw [hloaded _, hmode]
  unfold LoadInstance
  simp only [Run.call_node, Run.modify_node, hm]
  refine ⟨?_, ?_⟩
  · rw [Finish_ActivationState env _ hcleanup hfinish]
    rfl
  · rw [Finish_trace]
    simp

/-- Witness for C7: the sample node in `Disabled` mode, saved while it was
never activated, loaded under the `Complete` policy. -/
theorem LoadInstance_Disabled_terminal_witness :
    (quietEnv.Deserialize [] (nodeN EFlowSignalMode.Disabled)).SignalMode =
        EFlowSignalMode.Disabled ∧
      Keeps FlowNode.SignalMode quietEnv.AssetOnActivationStateLoaded ∧
      Keeps FlowNode.ActivationState quietEnv.Cleanup ∧
      Keeps FlowNode.ActivationState quietEnv.AssetFinishNode ∧
      (LoadInstance quietEnv { NodeGuid := 1, NodeData := [] }
          { node := nodeN EFlowSignalMode.Disabled, trace := [] }).node.ActivationState =
        (if quietEnv.FinishPolicy = EFlowFinishPolicy.Abort then EFlowNodeState.Aborted
          else EFlowNodeState.Completed) ∧
      (LoadInstance quietEnv { NodeGuid := 1, NodeData := [] }
          { node := nodeN EFlowSignalMode.Disabled, trace := [] }).trace =
        [] ++ [Event.AssetOnActivationStateLoaded,
          Event.LogNote "Signal disabled while loading Flow Node from SaveGame",
          Event.Cleanup, Event.AssetFinishNode] :=
  ⟨rfl, fun _ => rfl, fun _ => rfl, fun _ => rfl,
    LoadInstance_Disabled_terminal quietEnv { NodeGuid := 1, NodeData := [] }
      { node := nodeN EFlowSignalMode.Disabled, trace := [] } rfl (fun _ => rfl) (fun _ => rfl)
      (fun _ => rfl)⟩

/-- The loop never leaves when `LastNumber` is 255: an 8-bit counter is never
above 255, whatever the fuel. -/
theorem NumberedPinsLoop_255 (fuel : Nat) :
    ∀ (i : Nat) (Pins : List FFlowPin), i < 256 → NumberedPinsLoop fuel i 255 Pins = none := by
  induction fuel with
  | zero => intro i Pins _; rfl
  | succ fuel ih =>
    intro i Pins hi
    have hle : i ≤ 255 := by omega
    rw [NumberedPinsLoop, if_pos hle]
    exact ih _ _ (Nat.mod_lt _ (by decide))

/-- Below 255 the loop returns: started at `i ≤ LastNumber + 1` it appends the
pins numbered `i, ..., LastNumber` in that order, given fuel for every
evaluation of the loop test. -/
theorem NumberedPinsLoop_below_255 (LastNumber : Nat) (hlast : LastNumber < 255) (k : Nat) :
    ∀ (i fuel : Nat) (Pins : List FFlowPin), i + k = LastNumber + 1 → k + 1 ≤ fuel →
      NumberedPinsLoop fuel i LastNumber Pins =
        some (Pins ++ (List.range' i k).map FFlowPin.ofUInt8) := by
  induction k with
  | zero =>
    intro i fuel Pins hik hfuel
    obtain ⟨fuel, rfl⟩ : ∃ f, fuel = f + 1 := ⟨fuel - 1, by omega⟩
    have hgt : ¬ i ≤ LastNumber := by omega
    rw [NumberedPinsLoop, if_neg hgt]
    simp
  | succ k ih =>
    intro i fuel Pins hik hfuel
    obtain ⟨fuel, rfl⟩ : ∃ f, fuel = f + 1 := ⟨fuel - 1, by omega⟩
    have hle : i ≤ LastNumber := by omega
    have hmod : (i + 1) % 256 = i + 1 := Nat.mod_eq_of_lt (by omega)
    rw [NumberedPinsLoop, if_pos hle, hmod, ih (i + 1) fuel _ (by omega) (by omega)]
    simp [List.range'_succ]

/-- For `FirstNumber ≤ LastNumber < 255`, `SetNumberedInputPins` returns, and
`InputPins` is then exactly the pins numbered `FirstNumber, ..., LastNumber` in
that order, none of the earlier pins remaining. -/
theorem SetNumberedInputPins_below_255 (FirstNumber LastNumber fuel : Nat) (n : FlowNode)
    (hle : FirstNumber ≤ LastNumber) (hlast : LastNumber < 255)
    (hfuel : LastNumber - FirstNumber + 2 ≤ fuel) :
    SetNumberedInputPins fuel FirstNumber LastNumber n =
      some { n with InputPins :=
        (List.range' FirstNumber (LastNumber - FirstNumber + 1)).map FFlowPin.ofUInt8 } := by
  unfold SetNumberedInputPins
  rw [NumberedPinsLoop_below_255 LastNumber hlast (LastNumber - FirstNumber + 1)
    FirstNumber fuel [] (by omega) (by omega)]
  simp

/-- C8, at the failing input: with `LastNumber = 255` and any 8-bit
`FirstNumber`, `SetNumberedInputPins` does not return, however much fuel it is
given; the counter wraps from 255 to 0 and the loop test never fails. -/
theorem SetNumberedInputPins_255_never_returns (fuel FirstNumber : Nat) (n : FlowNode)
    (hfirst : FirstNumber < 256) :
    SetNumberedInputPins fuel FirstNumber 255 n = none := by
  unfold SetNumberedInputPins
  rw [NumberedPinsLoop_255 fuel FirstNumber [] hfirst]
  rfl

/-- Witness for C8: `SetNumberedInputPins(0, 255)` on the sample node. -/
theorem SetNumberedInputPins_255_never_returns_witness :
    0 < 256 ∧ SetNumberedInputPins 100000 0 255 (nodeN EFlowSignalMode.Enabled) = none :=
  ⟨by decide,
    SetNumberedInputPins_255_never_returns 100000 0 (nodeN EFlowSignalMode.Enabled) (by decide)⟩

/-- C3: on a `PassThrough` node triggered on one of its input pins, and with
the implementation of `OnPassThrough` of this file, `TriggerInput` performs
`TriggerOutput(Out, false, PassThrough)` for exactly the names `Out` of the
output pins that have a `Connections` entry, in the order of `OutputPins`, and
then `Finish`; nothing is delivered before the loop; the deliveries of the
whole call are those to the connections of these pins, in order; and the
node ends in state `Aborted` under the `Abort` policy and `Completed`
otherwise. The asset's delivery is taken not to touch `Connections` and
`OutputPins`, `Cleanup` and `FinishNode` not to touch the activation state. -/
theorem TriggerInput_PassThrough (env : Env) (PinName : FName)
    (ActivationType : EFlowPinActivationType) (r : Run)
    (hmode : r.node.SignalMode = EFlowSignalMode.PassThrough)
    (hpin : ∃ Pin ∈ r.node.InputPins, Pin.PinName = PinName)
    (hconn : ∀ G P, Keeps FlowNode.Connections (env.AssetTriggerInput G P))
    (hpins : ∀ G P, Keeps FlowNode.OutputPins (env.AssetTriggerInput G P))
    (hcleanup : Keeps FlowNode.ActivationState env.Cleanup)
    (hfinish : Keeps FlowNode.ActivationState env.AssetFinishNode) :
    (∃ entry : Run,
      TriggerInput env PinName ActivationType r =
          Finish env ((ConnectedOutputNames r.node).foldl
            (fun acc Out =>
              TriggerOutput env Out false EFlowPinActivationType.PassThrough acc)
            entry) ∧
        entry.node.ActivationState = r.node.ActivationState ∧
        Deliveries entry.trace = Deliveries r.trace) ∧
      Deliveries (TriggerInput env PinName ActivationType r).trace =
        Deliveries r.trace ++ (ConnectedOutputNames r.node).map (fun Out =>
          ((GetConnection r.node.Connections Out).NodeGuid,
            (GetConnection r.node.Connections Out).PinName)) ∧
      (TriggerInput env PinName ActivationType r).node.ActivationState =
        (if env.FinishPolicy = EFlowFinishPolicy.Abort then EFlowNodeState.Aborted
          else EFlowNodeState.Completed) := by
  obtain ⟨before, heq, hP, hC, hA, hD⟩ := TriggerInput_PassThrough_entry env PinName
    ActivationType r hmode ((PinsContain_iff _ _).mpr hpin)
  have hloop : TriggerInput env PinName ActivationType r =
      Finish env ((ConnectedOutputNames r.node).foldl
        (fun acc Out => TriggerOutput env Out false EFlowPinActivationType.PassThrough acc)
        (before.emit Event.OnPassThrough)) := by
    rw [heq]
    unfold OnPassThrough OnPassThrough_Implementation
    simp only []
    rw [passThroughLoop_eq env hconn]
    simp only [ConnectedOutputNames, Run.emit_node, hP, hC]
  refine ⟨⟨before.emit Event.OnPassThrough, hloop, ?_, ?_⟩, ?_, ?_⟩
  · exact hA
  · simp [Deliveries_append, Deliveries, hD]
  · rw [hloop, Finish_trace, Deliveries_append,
      triggerOutputs_Deliveries env hconn hpins]
    · simp [Deliveries_append, Deliveries, hD, hC]
    · intro Out hmem
      have := ConnectedOutputNames_spec r.node Out hmem
      simpa [hP, hC] using this
  · rw [hloop, Finish_ActivationState env _ hcleanup hfinish]
    rfl

/-- Witness for C3: the sample node in `PassThrough` mode, triggered on `In`. -/
theorem TriggerInput_PassThrough_witness :
    (nodeN EFlowSignalMode.PassThrough).SignalMode = EFlowSignalMode.PassThrough ∧
      (∃ Pin ∈ (nodeN EFlowSignalMode.PassThrough).InputPins, Pin.PinName = "In") ∧
      (∀ G P, Keeps FlowNode.Connections (quietEnv.AssetTriggerInput G P)) ∧
      (∀ G P, Keeps FlowNode.OutputPins (quietEnv.AssetTriggerInput G P)) ∧
      Keeps FlowNode.ActivationState quietEnv.Cleanup ∧
      Keeps FlowNode.ActivationState quietEnv.AssetFinishNode ∧
      ((∃ entry : Run,
        TriggerInput quietEnv "In" EFlowPinActivationType.Default
            { node := nodeN EFlowSignalMode.PassThrough, trace := [] } =
          Finish quietEnv ((ConnectedOutputNames (nodeN EFlowSignalMode.PassThrough)).foldl
            (fun acc Out =>
              TriggerOutput quietEnv Out false EFlowPinActivationType.PassThrough acc)
            entry) ∧
        entry.node.ActivationState = (nodeN EFlowSignalMode.PassThrough).ActivationState ∧
        Deliveries entry.trace = Deliveries []) ∧
      Deliveries (TriggerInput quietEnv "In" EFlowPinActivationType.Default
          { node := nodeN EFlowSignalMode.PassThrough, trace := [] }).trace =
        Deliveries [] ++ (ConnectedOutputNames (nodeN EFlowSignalMode.PassThrough)).map
          (fun Out =>
            ((GetConnection (nodeN EFlowSignalMode.PassThrough).Connections Out).NodeGuid,
              (GetConnection (nodeN EFlowSignalMode.PassThrough).Connections Out).PinName)) ∧
      (TriggerInput quietEnv "In" EFlowPinActivationType.Default
          { node := nodeN EFlowSignalMode.PassThrough, trace := [] }).node.ActivationState =
        (if quietEnv.FinishPolicy = EFlowFinishPolicy.Abort then EFlowNodeState.Aborted
          else EFlowNodeState.Completed)) :=
  ⟨rfl, ⟨{ PinName := "In" }, by decide, rfl⟩, fun _ _ _ => rfl, fun _ _ _ => rfl,
    fun _ => rfl, fun _ => rfl,
    TriggerInput_PassThrough quietEnv "In" EFlowPinActivationType.Default
      { node := nodeN EFlowSignalMode.PassThrough, trace := [] } rfl
      ⟨{ PinName := "In" }, by decide, rfl⟩ (fun _ _ _ => rfl) (fun _ _ _ => rfl)
      (fun _ => rfl) (fun _ => rfl)⟩

/-- The scenario of the numbered pins: `SetNumberedInputPins(0, 2)` on the
sample node, whose input pin was `In`, leaves exactly the pins `0`, `1`, `2`. -/
theorem SetNumberedInputPins_0_2 :
    (SetNumberedInputPins 4 0 2 (nodeN EFlowSignalMode.Enabled)).map FlowNode.InputPins =
      some [{ PinName := "0" }, { PinName := "1" }, { PinName := "2" }] := by
  decide

/-! ## Claims on pin lists, records and the graph -/

theorem AddInputPins_eq (Pins : List FFlowPin) :
    ∀ n : FlowNode, AddInputPins Pins n = { n with InputPins := n.InputPins ++ Pins } := by
  induction Pins with
  | nil => intro n; simp [AddInputPins]
  | cons Pin Rest ih =>
    intro n
    have := ih { n with InputPins := n.InputPins ++ [Pin] }
    simp only [AddInputPins, List.foldl_cons] at this ⊢
    rw [this]
    simp

theorem AddOutputPins_eq (Pins : List FFlowPin) :
    ∀ n : FlowNode, AddOutputPins Pins n = { n with OutputPins := n.OutputPins ++ Pins } := by
  induction Pins with
  | nil => intro n; simp [AddOutputPins]
  | cons Pin Rest ih =>
    intro n
    have := ih { n with OutputPins := n.OutputPins ++ [Pin] }
    simp only [AddOutputPins, List.foldl_cons] at this ⊢
    rw [this]
    simp

/-- C12: for every node and every list of pins `P`, repeated or already
present names included, `AddInputPins(P)` leaves `InputPins` equal to the old
list followed by `P` in order and `OutputPins` as it was, and `AddOutputPins(P)`
leaves `OutputPins` equal to the old list followed by `P` and `InputPins` as it
was. -/
theorem AddPins_append (n : FlowNode) (P : List FFlowPin) :
    (AddInputPins P n).InputPins = n.InputPins ++ P ∧
      (AddInputPins P n).OutputPins = n.OutputPins ∧
      (AddOutputPins P n).OutputPins = n.OutputPins ++ P ∧
      (AddOutputPins P n).InputPins = n.InputPins := by
  rw [AddInputPins_eq, AddOutputPins_eq]
  exact ⟨rfl, rfl, rfl, rfl⟩

/-- C13: `ResetRecords` leaves `ActivationState` equal to `NeverActivated` and
both record maps empty, and leaves `InputPins`, `OutputPins`, `Connections`
and `SignalMode` as they were; it makes no call. The record maps are written
and cleared in non-shipping builds only, so in a shipping build they are empty
to begin with. -/
theorem ResetRecords_resets (env : Env) (r : Run)
    (hrec : env.UE_BUILD_SHIPPING = true →
      r.node.InputRecords = [] ∧ r.node.OutputRecords = []) :
    (ResetRecords env r).node.ActivationState = EFlowNodeState.NeverActivated ∧
      (ResetRecords env r).node.InputRecords = [] ∧
      (ResetRecords env r).node.OutputRecords = [] ∧
      (ResetRecords env r).node.InputPins = r.node.InputPins ∧
      (ResetRecords env r).node.OutputPins = r.node.OutputPins ∧
      (ResetRecords env r).node.Connections = r.node.Connections ∧
      (ResetRecords env r).node.SignalMode = r.node.SignalMode ∧
      (ResetRecords env r).trace = r.trace := by
  unfold ResetRecords
  cases hs : env.UE_BUILD_SHIPPING
  · simp
  · obtain ⟨hi, ho⟩ := hrec hs
    simp [hi, ho]

/-- Witness for C13: the sample node with a record in each log, completed, in
a non-shipping build. -/
theorem ResetRecords_resets_witness :
    (quietEnv.UE_BUILD_SHIPPING = true →
        recordedRun.node.InputRecords = [] ∧ recordedRun.node.OutputRecords = []) ∧
      (ResetRecords quietEnv recordedRun).node.ActivationState =
        EFlowNodeState.NeverActivated ∧
      (ResetRecords quietEnv recordedRun).node.InputRecords = [] ∧
      (ResetRecords quietEnv recordedRun).node.OutputRecords = [] ∧
      (ResetRecords quietEnv recordedRun).node.InputPins = recordedRun.node.InputPins ∧
      (ResetRecords quietEnv recordedRun).node.OutputPins = recordedRun.node.OutputPins ∧
      (ResetRecords quietEnv recordedRun).node.Connections = recordedRun.node.Connections ∧
      (ResetRecords quietEnv recordedRun).node.SignalMode = recordedRun.node.SignalMode ∧
      (ResetRecords quietEnv recordedRun).trace = recordedRun.trace :=
  ⟨by decide, ResetRecords_resets quietEnv recordedRun (by decide)⟩

/-- C11, as the claim states it, fails: in the graph made of one node whose
output is connected to its own input `In`, no node other than that node holds
a connection to it, yet `IsInputConnected("In")` on it is true. -/
theorem IsInputConnected_self_counterexample :
    IsInputConnected (some selfLoopAsset) selfLoopNode "In" = true ∧
      ¬ ∃ Pair ∈ selfLoopAsset.Nodes, ∃ Node : FlowNode, Pair.2 = some Node ∧
        Node ≠ selfLoopNode ∧ ∃ Connection ∈ Node.Connections,
          Connection.2.NodeGuid = selfLoopNode.NodeGuid ∧ Connection.2.PinName = "In" := by
  refine ⟨by decide, ?_⟩
  rintro ⟨Pair, hmem, Node, hNode, hne, -⟩
  simp only [selfLoopAsset, List.mem_singleton] at hmem
  subst hmem
  exact hne (Option.some.inj hNode).symm

/-- C11, amended: `IsInputConnected(PinName)` on a node is true exactly when
the node has an owning graph and some node of that graph, the node itself
included, holds a connection whose target is this node's id and `PinName`. -/
theorem IsInputConnected_iff (Asset : Option UFlowAsset) (n : FlowNode) (PinName : FName) :
    IsInputConnected Asset n PinName = true ↔
      ∃ FlowAsset : UFlowAsset, Asset = some FlowAsset ∧
        ∃ Pair ∈ FlowAsset.Nodes, ∃ Node : FlowNode, Pair.2 = some Node ∧
          ∃ Connection ∈ Node.Connections,
            Connection.2.NodeGuid = n.NodeGuid ∧ Connection.2.PinName = PinName := by
  cases Asset with
  | none => simp [IsInputConnected]
  | some FlowAsset =>
    simp only [IsInputConnected, List.any_eq_true, Option.some.injEq, exists_eq_left']
    constructor
    · rintro ⟨Pair, hmem, h⟩
      cases hP : Pair.2 with
      | none => simp [hP] at h
      | some Node =>
        simp only [hP, List.any_eq_true, Bool.and_eq_true, beq_iff_eq] at h
        exact ⟨Pair, hmem, Node, hP, h⟩
    · rintro ⟨Pair, hmem, Node, hP, h⟩
      refine ⟨Pair, hmem, ?_⟩
      simp only [hP, List.any_eq_true, Bool.and_eq_true, beq_iff_eq]
      exact h

/-- A start above the last number: the loop test fails at once and no pin is
made. -/
theorem NumberedPinsLoop_first_gt_last (fuel i LastNumber : Nat) (Pins : List FFlowPin)
    (hgt : LastNumber < i) :
    NumberedPinsLoop (fuel + 1) i LastNumber Pins = some Pins := by
  rw [NumberedPinsLoop, if_neg (by omega)]

/-- For `LastNumber < 255` both functions return, given fuel for every
evaluation of the loop test; when `FirstNumber > LastNumber` the pin list they
leave is empty. -/
theorem SetNumberedPins_below_255 (FirstNumber LastNumber fuel : Nat) (n : FlowNode)
    (hlast : LastNumber < 255) (hfuel : LastNumber + 2 ≤ fuel + FirstNumber) (hpos : 0 < fuel) :
    (∃ Pins, SetNumberedInputPins fuel FirstNumber LastNumber n =
        some { n with InputPins := Pins } ∧ (LastNumber < FirstNumber → Pins = [])) ∧
      (∃ Pins, SetNumberedOutputPins fuel FirstNumber LastNumber n =
        some { n with OutputPins := Pins } ∧ (LastNumber < FirstNumber → Pins = [])) := by
  unfold SetNumberedInputPins SetNumberedOutputPins
  by_cases hgt : LastNumber < FirstNumber
  · obtain ⟨fuel, rfl⟩ : ∃ f, fuel = f + 1 := ⟨fuel - 1, by omega⟩
    rw [NumberedPinsLoop_first_gt_last fuel FirstNumber LastNumber [] hgt]
    exact ⟨⟨[], rfl, fun _ => rfl⟩, ⟨[], rfl, fun _ => rfl⟩⟩
  · rw [NumberedPinsLoop_below_255 LastNumber hlast (LastNumber + 1 - FirstNumber)
      FirstNumber fuel [] (by omega) (by omega)]
    exact ⟨⟨_, rfl, fun h => absurd h hgt⟩, ⟨_, rfl, fun h => absurd h hgt⟩⟩

/-- C20, at the failing input: with `LastNumber = 255` and any 8-bit
`FirstNumber`, neither `SetNumberedInputPins` nor `SetNumberedOutputPins`
returns, however much fuel they are given: the 8-bit counter wraps from 255 to
0 and the loop test `i <= 255` never fails. -/
theorem SetNumberedPins_255_never_terminate (fuel FirstNumber : Nat) (n : FlowNode)
    (hfirst : FirstNumber < 256) :
    SetNumberedInputPins fuel FirstNumber 255 n = none ∧
      SetNumberedOutputPins fuel FirstNumber 255 n = none := by
  unfold SetNumberedInputPins SetNumberedOutputPins
  rw [NumberedPinsLoop_255 fuel FirstNumber [] hfirst]
  exact ⟨rfl, rfl⟩

/-- Witness for C20: the arguments (0, 255) and (255, 255) on the sample node. -/
theorem SetNumberedPins_255_never_terminate_witness :
    (0 < 256 ∧
      SetNumberedInputPins 100000 0 255 (nodeN EFlowSignalMode.Enabled) = none ∧
      SetNumberedOutputPins 100000 0 255 (nodeN EFlowSignalMode.Enabled) = none) ∧
    (255 < 256 ∧
      SetNumberedInputPins 100000 255 255 (nodeN EFlowSignalMode.Enabled) = none ∧
      SetNumberedOutputPins 100000 255 255 (nodeN EFlowSignalMode.Enabled) = none) :=
  ⟨⟨by decide,
      SetNumberedPins_255_never_terminate 100000 0 (nodeN EFlowSignalMode.Enabled) (by decide)⟩,
    ⟨by decide,
      SetNumberedPins_255_never_terminate 100000 255 (nodeN EFlowSignalMode.Enabled)
        (by decide)⟩⟩

/-! ## Claims on output propagation -/

theorem FindRecords_AddPinRecord_same (Records : List (FName × List FPinRecord))
    (PinName : FName) (Record : FPinRecord) :
    FindRecords (AddPinRecord Records PinName Record) PinName =
      FindRecords Records PinName ++ [Record] := by
  induction Records with
  | nil => simp [AddPinRecord, FindRecords, List.lookup]
  | cons Head Rest ih =>
    obtain ⟨Key, Log⟩ := Head
    by_cases hk : Key = PinName
    · subst hk
      simp [AddPinRecord, FindRecords, List.lookup]
    · have hne : (PinName == Key) = false := by
        simpa using fun h : PinName = Key => hk h.symm
      simp only [AddPinRecord, if_neg hk, FindRecords, List.lookup_cons, hne] at ih ⊢
      exact ih

theorem FindRecords_AddPinRecord_other (Records : List (FName × List FPinRecord))
    (PinName Other : FName) (Record : FPinRecord) (hne : Other ≠ PinName) :
    FindRecords (AddPinRecord Records PinName Record) Other = FindRecords Records Other := by
  induction Records with
  | nil =>
    have h : (Other == PinName) = false := by simpa using hne
    simp [AddPinRecord, FindRecords, List.lookup, h]
  | cons Head Rest ih =>
    obtain ⟨Key, Log⟩ := Head
    by_cases hk : Key = PinName
    · subst hk
      have h : (Other == Key) = false := by simpa using hne
      simp [AddPinRecord, FindRecords, List.lookup, h]
    · by_cases ho : Other = Key
      · subst ho
        simp [AddPinRecord, if_neg hk, FindRecords, List.lookup]
      · have h : (Other == Key) = false := by simpa using ho
        simp only [AddPinRecord, if_neg hk, FindRecords, List.lookup_cons, h] at ih ⊢
        exact ih

theorem MapContains_eq_false {β : Type} (Map : List (FName × β)) (Key : FName)
    (h : ∀ Entry ∈ Map, Entry.1 ≠ Key) : MapContains Map Key = false := by
  cases hc : MapContains Map Key with
  | false => rfl
  | true =>
    obtain ⟨Entry, hmem, heq⟩ := (MapContains_iff Map Key).mp hc
    exact absurd heq (h Entry hmem)

/-- C17: in a build that keeps the pin records (not a shipping build), for a
pin name carried by an output pin and without `Connections` entry,
`TriggerOutput` with `bFinish = false` delivers no signal, leaves
`ActivationState` and every field but `OutputRecords` as they were, appends
exactly one record, of the given activation type, to the log of that pin, and
leaves the log of every other pin as it was. -/
theorem TriggerOutput_dead_end (env : Env) (PinName : FName)
    (ActivationType : EFlowPinActivationType) (r : Run)
    (hship : env.UE_BUILD_SHIPPING = false)
    (hpin : ∃ Pin ∈ r.node.OutputPins, Pin.PinName = PinName)
    (hdead : ∀ Entry ∈ r.node.Connections, Entry.1 ≠ PinName) :
    Deliveries (TriggerOutput env PinName false ActivationType r).trace = Deliveries r.trace ∧
      (TriggerOutput env PinName false ActivationType r).node.ActivationState =
        r.node.ActivationState ∧
      (TriggerOutput env PinName false ActivationType r).node =
        { r.node with OutputRecords :=
          (TriggerOutput env PinName false ActivationType r).node.OutputRecords } ∧
      FindRecords (TriggerOutput env PinName false ActivationType r).node.OutputRecords PinName =
        FindRecords r.node.OutputRecords PinName ++
          [{ Time := env.AppCurrentTime, ActivationType := ActivationType }] ∧
      ∀ Other : FName, Other ≠ PinName →
        FindRecords (TriggerOutput env PinName false ActivationType r).node.OutputRecords Other =
          FindRecords r.node.OutputRecords Other := by
  have hc := (PinsContain_iff _ _).mpr hpin
  have hm := MapContains_eq_false _ _ hdead
  have hnode : (TriggerOutput env PinName false ActivationType r).node =
      { r.node with
        OutputRecords :=
          AddPinRecord r.node.OutputRecords PinName ⟨env.AppCurrentTime, ActivationType⟩ } := by
    unfold TriggerOutput
    cases he : env.WITH_EDITOR <;> cases hv : env.bGraphInterfaceValid <;>
      simp [hship, hc, hm]
  have htrace : Deliveries (TriggerOutput env PinName false ActivationType r).trace =
      Deliveries r.trace := by
    unfold TriggerOutput
    cases he : env.WITH_EDITOR <;> cases hv : env.bGraphInterfaceValid <;>
      simp [hship, hc, hm, Deliveries_append, Deliveries]
  refine ⟨htrace, ?_, ?_, ?_, ?_⟩
  · rw [hnode]
  · rw [hnode]
  · rw [hnode]
    exact FindRecords_AddPinRecord_same _ _ _
  · intro Other hne
    rw [hnode]
    exact FindRecords_AddPinRecord_other _ _ _ _ hne

/-- Witness for C17: the output pin `Dead` of the sample node, which has no
connection. -/
theorem TriggerOutput_dead_end_witness :
    quietEnv.UE_BUILD_SHIPPING = false ∧
      (∃ Pin ∈ deadEndRun.node.OutputPins, Pin.PinName = "Dead") ∧
      (∀ Entry ∈ deadEndRun.node.Connections, Entry.1 ≠ "Dead") ∧
      Deliveries
          (TriggerOutput quietEnv "Dead" false EFlowPinActivationType.Default deadEndRun).trace =
        Deliveries deadEndRun.trace ∧
      (TriggerOutput quietEnv "Dead" false EFlowPinActivationType.Default
          deadEndRun).node.ActivationState = deadEndRun.node.ActivationState ∧
      (TriggerOutput quietEnv "Dead" false EFlowPinActivationType.Default deadEndRun).node =
        { deadEndRun.node with OutputRecords :=
          (TriggerOutput quietEnv "Dead" false EFlowPinActivationType.Default
            deadEndRun).node.OutputRecords } ∧
      FindRecords (TriggerOutput quietEnv "Dead" false EFlowPinActivationType.Default
          deadEndRun).node.OutputRecords "Dead" =
        FindRecords deadEndRun.node.OutputRecords "Dead" ++
          [{ Time := quietEnv.AppCurrentTime,
             ActivationType := EFlowPinActivationType.Default }] ∧
      ∀ Other : FName, Other ≠ "Dead" →
        FindRecords (TriggerOutput quietEnv "Dead" false EFlowPinActivationType.Default
            deadEndRun).node.OutputRecords Other =
          FindRecords deadEndRun.node.OutputRecords Other :=
  ⟨rfl, ⟨{ PinName := "Dead" }, by decide, rfl⟩, by decide,
    TriggerOutput_dead_end quietEnv "Dead" EFlowPinActivationType.Default deadEndRun rfl
      ⟨{ PinName := "Dead" }, by decide, rfl⟩ (by decide)⟩

/-- C16: for a pin name carried by an output pin and mapped by `Connections`
to node `G`, pin `P`, `TriggerOutput` with `bFinish = true` first performs the
whole of `Finish` (the calls `Cleanup` and `FinishNode` come first in the
trace) and only then, after the observer notifications, asks the asset to
deliver `TriggerInput(G, P)`; the delivery receives the node already in the
terminal state of the policy. `Cleanup` and `FinishNode` are taken not to touch
`OutputPins`, `Connections` and the activation state. -/
theorem TriggerOutput_finish_before_delivery (env : Env) (PinName : FName)
    (ActivationType : EFlowPinActivationType) (r : Run) (G : FGuid) (P : FName)
    (hpin : ∃ Pin ∈ r.node.OutputPins, Pin.PinName = PinName)
    (hconn : r.node.Connections.lookup PinName = some { NodeGuid := G, PinName := P })
    (hpinsC : Keeps FlowNode.OutputPins env.Cleanup)
    (hpinsF : Keeps FlowNode.OutputPins env.AssetFinishNode)
    (hconnC : Keeps FlowNode.Connections env.Cleanup)
    (hconnF : Keeps FlowNode.Connections env.AssetFinishNode)
    (hstateC : Keeps FlowNode.ActivationState env.Cleanup)
    (hstateF : Keeps FlowNode.ActivationState env.AssetFinishNode) :
    ∃ (atDelivery : FlowNode) (observed : List Event),
      TriggerOutput env PinName true ActivationType r =
          { node := env.AssetTriggerInput G P atDelivery
            trace := r.trace ++ [Event.Cleanup, Event.AssetFinishNode] ++ observed ++
              [Event.AssetTriggerInput G P] } ∧
        atDelivery.ActivationState =
          (if env.FinishPolicy = EFlowFinishPolicy.Abort then EFlowNodeState.Aborted
            else EFlowNodeState.Completed) ∧
        (∀ e ∈ observed, ∃ i, e = Event.OnOutputTriggered i) := by
  have hP : (Finish env r).node.OutputPins = r.node.OutputPins := by
    rw [Finish_node, hpinsF _, hpinsC _]
  have hC : (Finish env r).node.Connections = r.node.Connections := by
    rw [Finish_node, hconnF _, hconnC _]
  have hS : (Finish env r).node.ActivationState =
      (if env.FinishPolicy = EFlowFinishPolicy.Abort then EFlowNodeState.Aborted
        else EFlowNodeState.Completed) :=
    Finish_ActivationState env r hstateC hstateF
  have hT := Finish_trace env r
  have hc : PinsContain (Finish env r).node.OutputPins PinName = true := by
    rw [hP]
    exact (PinsContain_iff _ _).mpr hpin
  have hm : MapContains (Finish env r).node.Connections PinName = true := by
    rw [hC]
    exact MapContains_of_lookup _ _ _ hconn
  have hg : GetConnection (Finish env r).node.Connections PinName =
      { NodeGuid := G, PinName := P } := by
    rw [hC]
    exact GetConnection_of_lookup _ _ _ hconn
  unfold TriggerOutput
  simp only [if_true]
  generalize Finish env r = finished at hS hT hc hm hg
  cases hs : env.UE_BUILD_SHIPPING <;> cases he : env.WITH_EDITOR <;>
    cases hv : env.bGraphInterfaceValid <;>
    simp only [hc, hm, hg, hT, Run.call, Run.modify, Run.emit, if_true, if_false,
      Bool.false_and, Bool.true_and, Bool.and_false, Bool.and_true, Bool.and_self,
      Bool.false_eq_true]
  all_goals first
    | exact ⟨_, [_], rfl, hS, by simp⟩
    | exact ⟨_, [], by rw [List.append_nil], by exact hS, by simp⟩

/-- Witness for C16: the active sample node triggering `Out` with finish. -/
theorem TriggerOutput_finish_before_delivery_witness :
    (∃ Pin ∈ activeRun.node.OutputPins, Pin.PinName = "Out") ∧
      activeRun.node.Connections.lookup "Out" = some { NodeGuid := 2, PinName := "In" } ∧
      Keeps FlowNode.OutputPins quietEnv.Cleanup ∧
      Keeps FlowNode.OutputPins quietEnv.AssetFinishNode ∧
      Keeps FlowNode.Connections quietEnv.Cleanup ∧
      Keeps FlowNode.Connections quietEnv.AssetFinishNode ∧
      Keeps FlowNode.ActivationState quietEnv.Cleanup ∧
      Keeps FlowNode.ActivationState quietEnv.AssetFinishNode ∧
      ∃ (atDelivery : FlowNode) (observed : List Event),
        TriggerOutput quietEnv "Out" true EFlowPinActivationType.Default activeRun =
            { node := quietEnv.AssetTriggerInput 2 "In" atDelivery
              trace := activeRun.trace ++ [Event.Cleanup, Event.AssetFinishNode] ++ observed ++
                [Event.AssetTriggerInput 2 "In"] } ∧
          atDelivery.ActivationState =
            (if quietEnv.FinishPolicy = EFlowFinishPolicy.Abort then EFlowNodeState.Aborted
              else EFlowNodeState.Completed) ∧
          (∀ e ∈ observed, ∃ i, e = Event.OnOutputTriggered i) :=
  ⟨⟨{ PinName := "Out" }, by decide, rfl⟩, by decide, fun _ => rfl, fun _ => rfl,
    fun _ => rfl, fun _ => rfl, fun _ => rfl, fun _ => rfl,
    TriggerOutput_finish_before_delivery quietEnv "Out" EFlowPinActivationType.Default
      activeRun 2 "In" ⟨{ PinName := "Out" }, by decide, rfl⟩ (by decide) (fun _ => rfl)
      (fun _ => rfl) (fun _ => rfl) (fun _ => rfl) (fun _ => rfl) (fun _ => rfl)⟩

/-! ## Claims on the activation state -/

theorem TerminalState_IsTerminal (Policy : EFlowFinishPolicy) :
    IsTerminal (TerminalState Policy) := by
  cases Policy
  · exact Or.inr rfl
  · exact Or.inl rfl

theorem IsTerminal_ne_NeverActivated {State : EFlowNodeState} (h : IsTerminal State) :
    State ≠ EFlowNodeState.NeverActivated := by
  rcases h with h | h <;> rw [h] <;> decide

theorem Deactivate_ActivationState (env : Env) (r : Run)
    (hC : Keeps FlowNode.ActivationState env.Cleanup) :
    (Deactivate env r).node.ActivationState = TerminalState env.FinishPolicy := by
  rw [Deactivate_node, hC _]

theorem TriggerOutput_ActivationState (env : Env) (PinName : FName) (bFinish : Bool)
    (ActivationType : EFlowPinActivationType) (r : Run)
    (hT : ∀ G P, Keeps FlowNode.ActivationState (env.AssetTriggerInput G P)) :
    (TriggerOutput env PinName bFinish ActivationType r).node.ActivationState =
      (if bFinish then Finish env r else r).node.ActivationState := by
  unfold TriggerOutput
  generalize (if bFinish = true then Finish env r else r) = r1
  cases hs : env.UE_BUILD_SHIPPING <;> cases he : env.WITH_EDITOR <;>
    cases hv : env.bGraphInterfaceValid <;>
    cases hc : PinsContain r1.node.OutputPins PinName <;>
    cases hm : MapContains r1.node.Connections PinName <;>
    simp [hc, hm, hT _ _ _]

theorem OnPassThrough_ActivationState (env : Env) (r : Run)
    (hC : Keeps FlowNode.ActivationState env.Cleanup)
    (hF : Keeps FlowNode.ActivationState env.AssetFinishNode) :
    (OnPassThrough env r).node.ActivationState = TerminalState env.FinishPolicy := by
  unfold OnPassThrough OnPassThrough_Implementation
  exact Finish_ActivationState env _ hC hF

theorem LoadInstanceDispatch_ActivationState (env : Env) (r : Run)
    (hC : Keeps FlowNode.ActivationState env.Cleanup)
    (hF : Keeps FlowNode.ActivationState env.AssetFinishNode) :
    (LoadInstanceDispatch env r).node.ActivationState = r.node.ActivationState ∨
      (LoadInstanceDispatch env r).node.ActivationState = TerminalState env.FinishPolicy := by
  unfold LoadInstanceDispatch
  cases hm : r.node.SignalMode
  · exact Or.inl rfl
  · exact Or.inr (Finish_ActivationState env _ hC hF)
  · exact Or.inr (OnPassThrough_ActivationState env _ hC hF)

/-- The dispatch that ends `TriggerInput` keeps the activation state or, in
`PassThrough` mode, ends in the terminal state of the policy. -/
theorem TriggerInput_dispatch_ActivationState (env : Env) (PinName : FName) (r3 : Run)
    (hE : ∀ Pin, Keeps FlowNode.ActivationState (env.ExecuteInput Pin))
    (hC : Keeps FlowNode.ActivationState env.Cleanup)
    (hF : Keeps FlowNode.ActivationState env.AssetFinishNode) :
    (match r3.node.SignalMode with
      | EFlowSignalMode.Enabled =>
        r3.call (Event.ExecuteInput PinName) (env.ExecuteInput PinName)
      | EFlowSignalMode.Disabled =>
        if env.bLogOnSignalDisabled then
          r3.emit (Event.LogNote ("Node disabled while triggering input " ++ PinName))
        else r3
      | EFlowSignalMode.PassThrough =>
        OnPassThrough env
          (if env.bLogOnSignalPassthrough then
            r3.emit (Event.LogNote ("Signal pass-through on triggering input " ++ PinName))
          else r3)).node.ActivationState = r3.node.ActivationState ∨
    (match r3.node.SignalMode with
      | EFlowSignalMode.Enabled =>
        r3.call (Event.ExecuteInput PinName) (env.ExecuteInput PinName)
      | EFlowSignalMode.Disabled =>
        if env.bLogOnSignalDisabled then
          r3.emit (Event.LogNote ("Node disabled while triggering input " ++ PinName))
        else r3
      | EFlowSignalMode.PassThrough =>
        OnPassThrough env
          (if env.bLogOnSignalPassthrough then
            r3.emit (Event.LogNote ("Signal pass-through on triggering input " ++ PinName))
          else r3)).node.ActivationState = TerminalState env.FinishPolicy := by
  cases hm : r3.node.SignalMode
  · exact Or.inl (hE _ _)
  · cases hl : env.bLogOnSignalDisabled <;> exact Or.inl rfl
  · exact Or.inr (OnPassThrough_ActivationState env _ hC hF)

theorem TriggerInput_ActivationState (env : Env) (PinName : FName)
    (ActivationType : EFlowPinActivationType) (r : Run)
    (hE : ∀ Pin, Keeps FlowNode.ActivationState (env.ExecuteInput Pin))
    (hC : Keeps FlowNode.ActivationState env.Cleanup)
    (hF : Keeps FlowNode.ActivationState env.AssetFinishNode) :
    (TriggerInput env PinName ActivationType r).node.ActivationState =
        r.node.ActivationState ∨
      (TriggerInput env PinName ActivationType r).node.ActivationState =
        EFlowNodeState.Active ∨
      (TriggerInput env PinName ActivationType r).node.ActivationState =
        TerminalState env.FinishPolicy := by
  unfold TriggerInput
  cases hc : PinsContain r.node.InputPins PinName
  · cases hs : env.UE_BUILD_SHIPPING <;> exact Or.inl rfl
  · simp only [if_true]
    rcases TriggerInput_dispatch_ActivationState env PinName _ hE hC hF with h | h
    · rw [h]
      by_cases hmode : r.node.SignalMode = EFlowSignalMode.Enabled
      · cases hs : env.UE_BUILD_SHIPPING <;> cases he : env.WITH_EDITOR <;>
          cases hv : env.bGraphInterfaceValid <;> simp [hmode]
      · cases hs : env.UE_BUILD_SHIPPING <;> cases he : env.WITH_EDITOR <;>
          cases hv : env.bGraphInterfaceValid <;> simp [hmode]
    · exact Or.inr (Or.inr h)

theorem TriggerInput_state_unknown (env : Env) (PinName : FName)
    (ActivationType : EFlowPinActivationType) (r : Run)
    (hpin : ∀ Pin ∈ r.node.InputPins, Pin.PinName ≠ PinName) :
    (TriggerInput env PinName ActivationType r).node.ActivationState =
      r.node.ActivationState := by
  have hc := PinsContain_eq_false _ _ hpin
  unfold TriggerInput
  cases hs : env.UE_BUILD_SHIPPING <;> simp [hc]

theorem TriggerInput_state_Disabled (env : Env) (PinName : FName)
    (ActivationType : EFlowPinActivationType) (r : Run)
    (hmode : r.node.SignalMode = EFlowSignalMode.Disabled) :
    (TriggerInput env PinName ActivationType r).node.ActivationState =
      r.node.ActivationState := by
  unfold TriggerInput
  cases hc : PinsContain r.node.InputPins PinName <;> cases hs : env.UE_BUILD_SHIPPING <;>
    cases he : env.WITH_EDITOR <;> cases hg : env.bGraphInterfaceValid <;>
    cases hl : env.bLogOnSignalDisabled <;> simp [hmode]

theorem TriggerInput_state_PassThrough (env : Env) (PinName : FName)
    (ActivationType : EFlowPinActivationType) (r : Run)
    (hmode : r.node.SignalMode = EFlowSignalMode.PassThrough)
    (hpin : ∃ Pin ∈ r.node.InputPins, Pin.PinName = PinName)
    (hC : Keeps FlowNode.ActivationState env.Cleanup)
    (hF : Keeps FlowNode.ActivationState env.AssetFinishNode) :
    (TriggerInput env PinName ActivationType r).node.ActivationState =
      TerminalState env.FinishPolicy := by
  obtain ⟨before, heq, -⟩ := TriggerInput_PassThrough_entry env PinName ActivationType r
    hmode ((PinsContain_iff _ _).mpr hpin)
  rw [heq]
  exact OnPassThrough_ActivationState env before hC hF

/-- On an `Enabled` node and one of its input pins, the state after
`TriggerInput` is `Active`, unless `OnActivate` switched the node to
`PassThrough`, in which case it is terminal. -/
theorem TriggerInput_state_Enabled (env : Env) (PinName : FName)
    (ActivationType : EFlowPinActivationType) (r : Run)
    (hmode : r.node.SignalMode = EFlowSignalMode.Enabled)
    (hpin : ∃ Pin ∈ r.node.InputPins, Pin.PinName = PinName)
    (hE : ∀ Pin, Keeps FlowNode.ActivationState (env.ExecuteInput Pin))
    (hC : Keeps FlowNode.ActivationState env.Cleanup)
    (hF : Keeps FlowNode.ActivationState env.AssetFinishNode) :
    (TriggerInput env PinName ActivationType r).node.ActivationState =
        EFlowNodeState.Active ∨
      (TriggerInput env PinName ActivationType r).node.ActivationState =
        TerminalState env.FinishPolicy := by
  have hc := (PinsContain_iff _ _).mpr hpin
  unfold TriggerInput
  simp only [hc, if_true]
  rcases TriggerInput_dispatch_ActivationState env PinName _ hE hC hF with h | h
  · left
    rw [h]
    cases hs : env.UE_BUILD_SHIPPING <;> cases he : env.WITH_EDITOR <;>
      cases hv : env.bGraphInterfaceValid <;> simp [hmode]
  · exact Or.inr h

/-- On an `Enabled` node and one of its input pins, the state after
`TriggerInput` is `Active` whatever it was before, when the node was `Active`
already (no `OnActivate`) or `OnActivate` keeps the signal mode. -/
theorem TriggerInput_state_Enabled_Active (env : Env) (PinName : FName)
    (ActivationType : EFlowPinActivationType) (r : Run)
    (hmode : r.node.SignalMode = EFlowSignalMode.Enabled)
    (hpin : ∃ Pin ∈ r.node.InputPins, Pin.PinName = PinName)
    (hE : ∀ Pin, Keeps FlowNode.ActivationState (env.ExecuteInput Pin))
    (hA : r.node.ActivationState = EFlowNodeState.Active ∨
      Keeps FlowNode.SignalMode env.OnActivate) :
    (TriggerInput env PinName ActivationType r).node.ActivationState =
      EFlowNodeState.Active := by
  have hc := (PinsContain_iff _ _).mpr hpin
  by_cases hact : r.node.ActivationState = EFlowNodeState.Active
  · unfold TriggerInput
    cases hs : env.UE_BUILD_SHIPPING <;> cases he : env.WITH_EDITOR <;>
      cases hv : env.bGraphInterfaceValid <;>
      simp [hmode, hc, hact, hE _ _]
  · have hkeep : Keeps FlowNode.SignalMode env.OnActivate := hA.resolve_left hact
    have hm : (env.OnActivate r.node).SignalMode = EFlowSignalMode.Enabled := by
      rw [hkeep r.node, hmode]
    unfold TriggerInput
    cases hs : env.UE_BUILD_SHIPPING <;> cases he : env.WITH_EDITOR <;>
      cases hv : env.bGraphInterfaceValid <;>
      simp [hmode, hc, hact, hm, hE _ _]

theorem LoadInstanceDispatch_state (env : Env) (r : Run)
    (hC : Keeps FlowNode.ActivationState env.Cleanup)
    (hF : Keeps FlowNode.ActivationState env.AssetFinishNode) :
    (LoadInstanceDispatch env r).node.ActivationState =
      (if r.node.SignalMode = EFlowSignalMode.Enabled then r.node.ActivationState
        else TerminalState env.FinishPolicy) := by
  unfold LoadInstanceDispatch
  cases hm : r.node.SignalMode
  · simp [OnLoad, OnLoad_Implementation]
  · simp only [reduceCtorEq, if_false]
    exact Finish_ActivationState env _ hC hF
  · simp only [reduceCtorEq, if_false]
    exact OnPassThrough_ActivationState env _ hC hF

/-- C15, as the claim states it, fails: the sample node, `Enabled` and
`Completed`, is `Active` after `TriggerInput` on its input pin `In`, under
hooks that leave the node alone. -/
theorem TriggerInput_leaves_terminal_counterexample :
    completedRun.node.ActivationState = EFlowNodeState.Completed ∧
      (TriggerInput quietEnv "In" EFlowPinActivationType.Default
        completedRun).node.ActivationState = EFlowNodeState.Active := by
  decide

/-- C15, amended: with hooks that keep the activation state, and
`TerminalState` the state of the finish policy (`Aborted` under `Abort`,
`Completed` otherwise), the state after each operation is exactly this.
`TriggerInput`: the state before, for a pin name that no input pin carries or a
node in `Disabled` mode; the terminal state, for a `PassThrough` node and one of
its input pins; `Active`, for an `Enabled` node and one of its input pins,
whatever the state before, `Completed` and `Aborted` included (when the node
was not `Active`, provided `OnActivate` keeps the signal mode; without that
proviso `Active` or the terminal state).
`TriggerOutput`: the state before without finish, the terminal state with it.
`Finish`, `Deactivate`: the terminal state.
The mode dispatch of `LoadInstance`: the state before in `Enabled` mode, the
terminal state otherwise.
`ResetRecords`: `NeverActivated`.
Hence (a) a node that is not `NeverActivated` is not `NeverActivated` after any
of the five operations, and (b) a `Completed` or `Aborted` node is still
`Completed` or `Aborted` after each of them, except after `TriggerInput` on an
input pin of an `Enabled` node. -/
theorem ActivationState_forward (env : Env) (r : Run) (PinName : FName) (bFinish : Bool)
    (ActivationType : EFlowPinActivationType)
    (hE : ∀ Pin, Keeps FlowNode.ActivationState (env.ExecuteInput Pin))
    (hC : Keeps FlowNode.ActivationState env.Cleanup)
    (hT : ∀ G P, Keeps FlowNode.ActivationState (env.AssetTriggerInput G P))
    (hF : Keeps FlowNode.ActivationState env.AssetFinishNode) :
    (r.node.ActivationState ≠ EFlowNodeState.NeverActivated →
      (TriggerInput env PinName ActivationType r).node.ActivationState ≠
          EFlowNodeState.NeverActivated ∧
        (TriggerOutput env PinName bFinish ActivationType r).node.ActivationState ≠
          EFlowNodeState.NeverActivated ∧
        (Finish env r).node.ActivationState ≠ EFlowNodeState.NeverActivated ∧
        (Deactivate env r).node.ActivationState ≠ EFlowNodeState.NeverActivated ∧
        (LoadInstanceDispatch env r).node.ActivationState ≠ EFlowNodeState.NeverActivated) ∧
    (IsTerminal r.node.ActivationState →
      IsTerminal (TriggerOutput env PinName bFinish ActivationType r).node.ActivationState ∧
        IsTerminal (Finish env r).node.ActivationState ∧
        IsTerminal (Deactivate env r).node.ActivationState ∧
        IsTerminal (LoadInstanceDispatch env r).node.ActivationState ∧
        (¬ (r.node.SignalMode = EFlowSignalMode.Enabled ∧
            ∃ Pin ∈ r.node.InputPins, Pin.PinName = PinName) →
          IsTerminal (TriggerInput env PinName ActivationType r).node.ActivationState)) ∧
    ((∀ Pin ∈ r.node.InputPins, Pin.PinName ≠ PinName) →
      (TriggerInput env PinName ActivationType r).node.ActivationState =
        r.node.ActivationState) ∧
    (r.node.SignalMode = EFlowSignalMode.Disabled →
      (TriggerInput env PinName ActivationType r).node.ActivationState =
        r.node.ActivationState) ∧
    ((∃ Pin ∈ r.node.InputPins, Pin.PinName = PinName) →
      r.node.SignalMode = EFlowSignalMode.PassThrough →
      (TriggerInput env PinName ActivationType r).node.ActivationState =
        TerminalState env.FinishPolicy) ∧
    ((∃ Pin ∈ r.node.InputPins, Pin.PinName = PinName) →
      r.node.SignalMode = EFlowSignalMode.Enabled →
      ((TriggerInput env PinName ActivationType r).node.ActivationState =
            EFlowNodeState.Active ∨
          (TriggerInput env PinName ActivationType r).node.ActivationState =
            TerminalState env.FinishPolicy) ∧
        (r.node.ActivationState = EFlowNodeState.Active ∨
            Keeps FlowNode.SignalMode env.OnActivate →
          (TriggerInput env PinName ActivationType r).node.ActivationState =
            EFlowNodeState.Active)) ∧
    (TriggerOutput env PinName bFinish ActivationType r).node.ActivationState =
      (if bFinish then TerminalState env.FinishPolicy else r.node.ActivationState) ∧
    (Finish env r).node.ActivationState = TerminalState env.FinishPolicy ∧
    (Deactivate env r).node.ActivationState = TerminalState env.FinishPolicy ∧
    (LoadInstanceDispatch env r).node.ActivationState =
      (if r.node.SignalMode = EFlowSignalMode.Enabled then r.node.ActivationState
        else TerminalState env.FinishPolicy) ∧
    (ResetRecords env r).node.ActivationState = EFlowNodeState.NeverActivated := by
  have hterm := TerminalState_IsTerminal env.FinishPolicy
  have hfin := Finish_ActivationState env r hC hF
  have hdea := Deactivate_ActivationState env r hC
  have hout := TriggerOutput_ActivationState env PinName bFinish ActivationType r hT
  have hin := TriggerInput_ActivationState env PinName ActivationType r hE hC hF
  have hload := LoadInstanceDispatch_ActivationState env r hC hF
  have houtE : (TriggerOutput env PinName bFinish ActivationType r).node.ActivationState =
      (if bFinish then TerminalState env.FinishPolicy else r.node.ActivationState) := by
    cases bFinish
    · exact hout
    · exact hout.trans hfin
  have houtT : (TriggerOutput env PinName bFinish ActivationType r).node.ActivationState =
      r.node.ActivationState ∨
      (TriggerOutput env PinName bFinish ActivationType r).node.ActivationState =
        TerminalState env.FinishPolicy := by
    cases bFinish
    · exact Or.inl hout
    · exact Or.inr (hout.trans hfin)
  refine ⟨fun hne => ⟨?_, ?_, ?_, ?_, ?_⟩, fun ht => ⟨?_, ?_, ?_, ?_, ?_⟩,
    TriggerInput_state_unknown env PinName ActivationType r,
    TriggerInput_state_Disabled env PinName ActivationType r,
    fun hpin hmode => TriggerInput_state_PassThrough env PinName ActivationType r hmode hpin
      hC hF,
    fun hpin hmode =>
      ⟨TriggerInput_state_Enabled env PinName ActivationType r hmode hpin hE hC hF,
        TriggerInput_state_Enabled_Active env PinName ActivationType r hmode hpin hE⟩,
    houtE, hfin, hdea, LoadInstanceDispatch_state env r hC hF, ?_⟩
  · rcases hin with h | h | h
    · rw [h]; exact hne
    · rw [h]; decide
    · rw [h]; exact IsTerminal_ne_NeverActivated hterm
  · rcases houtT with h | h
    · rw [h]; exact hne
    · rw [h]; exact IsTerminal_ne_NeverActivated hterm
  · rw [hfin]; exact IsTerminal_ne_NeverActivated hterm
  · rw [hdea]; exact IsTerminal_ne_NeverActivated hterm
  · rcases hload with h | h
    · rw [h]; exact hne
    · rw [h]; exact IsTerminal_ne_NeverActivated hterm
  · rcases houtT with h | h
    · rw [h]; exact ht
    · rw [h]; exact hterm
  · rw [hfin]; exact hterm
  · rw [hdea]; exact hterm
  · rcases hload with h | h
    · rw [h]; exact ht
    · rw [h]; exact hterm
  · intro hnot
    by_cases hpin : ∃ Pin ∈ r.node.InputPins, Pin.PinName = PinName
    · cases hmode : r.node.SignalMode
      · exact absurd ⟨hmode, hpin⟩ hnot
      · rw [TriggerInput_state_Disabled env PinName ActivationType r hmode]
        exact ht
      · rw [TriggerInput_state_PassThrough env PinName ActivationType r hmode hpin hC hF]
        exact hterm
    · have hno : ∀ Pin ∈ r.node.InputPins, Pin.PinName ≠ PinName :=
        fun Pin hmem heq => hpin ⟨Pin, hmem, heq⟩
      rw [TriggerInput_state_unknown env PinName ActivationType r hno]
      exact ht
  · unfold ResetRecords
    cases hs : env.UE_BUILD_SHIPPING <;> simp

/-- Witness for C15 amended: the completed sample node, triggered on its input
pin `In` and on the unknown pin name `Bogus`, and its output triggered with
finish. -/
theorem ActivationState_forward_witness :
    (∀ Pin, Keeps FlowNode.ActivationState (quietEnv.ExecuteInput Pin)) ∧
      Keeps FlowNode.ActivationState quietEnv.Cleanup ∧
      (∀ G P, Keeps FlowNode.ActivationState (quietEnv.AssetTriggerInput G P)) ∧
      Keeps FlowNode.ActivationState quietEnv.AssetFinishNode ∧
      completedRun.node.ActivationState ≠ EFlowNodeState.NeverActivated ∧
      IsTerminal completedRun.node.ActivationState ∧
      ((TriggerInput quietEnv "In" EFlowPinActivationType.Default
            completedRun).node.ActivationState ≠ EFlowNodeState.NeverActivated ∧
        (TriggerOutput quietEnv "In" true EFlowPinActivationType.Default
            completedRun).node.ActivationState ≠ EFlowNodeState.NeverActivated ∧
        (Finish quietEnv completedRun).node.ActivationState ≠ EFlowNodeState.NeverActivated ∧
        (Deactivate quietEnv completedRun).node.ActivationState ≠
          EFlowNodeState.NeverActivated ∧
        (LoadInstanceDispatch quietEnv completedRun).node.ActivationState ≠
          EFlowNodeState.NeverActivated) ∧
      (IsTerminal (TriggerOutput quietEnv "In" true EFlowPinActivationType.Default
            completedRun).node.ActivationState ∧
        IsTerminal (Finish quietEnv completedRun).node.ActivationState ∧
        IsTerminal (Deactivate quietEnv completedRun).node.ActivationState ∧
        IsTerminal (LoadInstanceDispatch quietEnv completedRun).node.ActivationState) ∧
      ((∃ Pin ∈ completedRun.node.InputPins, Pin.PinName = "In") ∧
        completedRun.node.SignalMode = EFlowSignalMode.Enabled ∧
        Keeps FlowNode.SignalMode quietEnv.OnActivate ∧
        (TriggerInput quietEnv "In" EFlowPinActivationType.Default
            completedRun).node.ActivationState = EFlowNodeState.Active) ∧
      ((∀ Pin ∈ completedRun.node.InputPins, Pin.PinName ≠ "Bogus") ∧
        (TriggerInput quietEnv "Bogus" EFlowPinActivationType.Default
            completedRun).node.ActivationState = completedRun.node.ActivationState ∧
        IsTerminal (TriggerInput quietEnv "Bogus" EFlowPinActivationType.Default
            completedRun).node.ActivationState) ∧
      (TriggerOutput quietEnv "In" true EFlowPinActivationType.Default
            completedRun).node.ActivationState =
        (if true then TerminalState quietEnv.FinishPolicy
          else completedRun.node.ActivationState) ∧
      (Finish quietEnv completedRun).node.ActivationState =
        TerminalState quietEnv.FinishPolicy ∧
      (Deactivate quietEnv completedRun).node.ActivationState =
        TerminalState quietEnv.FinishPolicy ∧
      (LoadInstanceDispatch quietEnv completedRun).node.ActivationState =
        (if completedRun.node.SignalMode = EFlowSignalMode.Enabled then
          completedRun.node.ActivationState
        else TerminalState quietEnv.FinishPolicy) ∧
      (ResetRecords quietEnv completedRun).node.ActivationState =
        EFlowNodeState.NeverActivated := by
  obtain ⟨ha, hb, -, -, -, hen, hout, hfin, hdea, hload, hreset⟩ :=
    ActivationState_forward quietEnv completedRun "In" true EFlowPinActivationType.Default
      (fun _ _ => rfl) (fun _ => rfl) (fun _ _ _ => rfl) (fun _ => rfl)
  obtain ⟨-, hbB, huB, -⟩ :=
    ActivationState_forward quietEnv completedRun "Bogus" true EFlowPinActivationType.Default
      (fun _ _ => rfl) (fun _ => rfl) (fun _ _ _ => rfl) (fun _ => rfl)
  have hterm : IsTerminal completedRun.node.ActivationState := Or.inl rfl
  have hb1 := hb hterm
  exact ⟨fun _ _ => rfl, fun _ => rfl, fun _ _ _ => rfl, fun _ => rfl, by decide, hterm,
    ha (by decide), ⟨hb1.1, hb1.2.1, hb1.2.2.1, hb1.2.2.2.1⟩,
    ⟨⟨{ PinName := "In" }, by decide, rfl⟩, rfl, fun _ => rfl,
      (hen ⟨{ PinName := "In" }, by decide, rfl⟩ rfl).2 (Or.inr (fun _ => rfl))⟩,
    ⟨by decide, huB (by decide), (hbB hterm).2.2.2.2 (by decide)⟩,
    hout, hfin, hdea, hload, hreset⟩

/-- C14, as the claim states it, fails: on the sample node in `Disabled` mode,
in a non-shipping build, `TriggerInput` on the input pin `In` changes
`InputRecords`, and `TriggerInput` on the unknown pin name `Bogus` reports an
error. -/
theorem TriggerInput_Disabled_records_counterexample :
    (nodeN EFlowSignalMode.Disabled).SignalMode = EFlowSignalMode.Disabled ∧
      (TriggerInput quietEnv "In" EFlowPinActivationType.Default
          { node := nodeN EFlowSignalMode.Disabled, trace := [] }).node.InputRecords ≠
        (nodeN EFlowSignalMode.Disabled).InputRecords ∧
      (TriggerInput quietEnv "Bogus" EFlowPinActivationType.Default
          { node := nodeN EFlowSignalMode.Disabled, trace := [] }).trace =
        [Event.LogError "Input Pin name Bogus invalid"] := by
  decide

/-- C14, amended: on a node in `Disabled` mode `TriggerInput` neither
activates nor executes, and what it does is exactly this.
For a pin name that an input pin carries: in a build that keeps the pin
records (not a shipping build) one record, of the given activation type, is
appended to the log of that pin in `InputRecords`, the log of every other pin
and every other field of the node staying as they were; in a shipping build
the node is unchanged in every field. The calls made are the notification of
the graph observer (editor builds with an observer) and then the note of the
setting `bLogOnSignalDisabled`, nothing else: no error is reported, no hook and
no service of the asset is called.
For a pin name that no input pin carries: the node is unchanged in every
field and the only call is the error report of non-shipping builds. -/
theorem TriggerInput_Disabled_frame (env : Env) (PinName : FName)
    (ActivationType : EFlowPinActivationType) (r : Run)
    (hmode : r.node.SignalMode = EFlowSignalMode.Disabled) :
    ((∃ Pin ∈ r.node.InputPins, Pin.PinName = PinName) →
      (TriggerInput env PinName ActivationType r).node =
          { r.node with
            InputRecords :=
              if env.UE_BUILD_SHIPPING then r.node.InputRecords
              else AddPinRecord r.node.InputRecords PinName
                ⟨env.AppCurrentTime, ActivationType⟩ } ∧
        (env.UE_BUILD_SHIPPING = false →
          FindRecords (TriggerInput env PinName ActivationType r).node.InputRecords PinName =
              FindRecords r.node.InputRecords PinName ++
                [{ Time := env.AppCurrentTime, ActivationType := ActivationType }] ∧
            ∀ Other : FName, Other ≠ PinName →
              FindRecords (TriggerInput env PinName ActivationType r).node.InputRecords Other =
                FindRecords r.node.InputRecords Other) ∧
        (env.UE_BUILD_SHIPPING = true →
          (TriggerInput env PinName ActivationType r).node = r.node) ∧
        (TriggerInput env PinName ActivationType r).trace =
          r.trace ++
            (if env.WITH_EDITOR && env.bGraphInterfaceValid then
              [Event.OnInputTriggered (IndexOfByKey r.node.InputPins PinName)]
            else []) ++
            (if env.bLogOnSignalDisabled then
              [Event.LogNote ("Node disabled while triggering input " ++ PinName)]
            else [])) ∧
    ((∀ Pin ∈ r.node.InputPins, Pin.PinName ≠ PinName) →
      (TriggerInput env PinName ActivationType r).node = r.node ∧
        (TriggerInput env PinName ActivationType r).trace =
          r.trace ++ (if env.UE_BUILD_SHIPPING then []
            else [Event.LogError ("Input Pin name " ++ PinName ++ " invalid")])) := by
  obtain ⟨⟨Guid, Ins, Outs, Conns, Mode, State, Time, InRecs, OutRecs, Cls⟩, Trace⟩ := r
  simp only at hmode
  subst hmode
  constructor
  · intro hpin
    have hc : PinsContain Ins PinName = true := (PinsContain_iff _ _).mpr hpin
    have hnode : (TriggerInput env PinName ActivationType
        { node := ⟨Guid, Ins, Outs, Conns, EFlowSignalMode.Disabled, State, Time, InRecs,
            OutRecs, Cls⟩
          trace := Trace }).node =
        ⟨Guid, Ins, Outs, Conns, EFlowSignalMode.Disabled, State, Time,
          (if env.UE_BUILD_SHIPPING then InRecs
            else AddPinRecord InRecs PinName ⟨env.AppCurrentTime, ActivationType⟩),
          OutRecs, Cls⟩ := by
      unfold TriggerInput
      cases hs : env.UE_BUILD_SHIPPING <;> cases he : env.WITH_EDITOR <;>
        cases hg : env.bGraphInterfaceValid <;> cases hl : env.bLogOnSignalDisabled <;>
        simp [hc]
    refine ⟨hnode, ?_, ?_, ?_⟩
    · intro hs
      rw [hnode]
      simp only [hs, Bool.false_eq_true, if_false]
      exact ⟨FindRecords_AddPinRecord_same _ _ _,
        fun Other hne => FindRecords_AddPinRecord_other _ _ _ _ hne⟩
    · intro hs
      rw [hnode]
      simp only [hs, if_true]
    · unfold TriggerInput
      cases hs : env.UE_BUILD_SHIPPING <;> cases he : env.WITH_EDITOR <;>
        cases hg : env.bGraphInterfaceValid <;> cases hl : env.bLogOnSignalDisabled <;>
        simp [hc]
  · intro hpin
    have hc := PinsContain_eq_false _ _ hpin
    unfold TriggerInput
    cases hs : env.UE_BUILD_SHIPPING <;> simp [hc]

/-- Witness for C14 amended: the sample node in `Disabled` mode, triggered on
its input pin `In` and on the unknown pin name `Bogus`. -/
theorem TriggerInput_Disabled_frame_witness :
    (nodeN EFlowSignalMode.Disabled).SignalMode = EFlowSignalMode.Disabled ∧
      ((∃ Pin ∈ (nodeN EFlowSignalMode.Disabled).InputPins, Pin.PinName = "In") ∧
        (TriggerInput quietEnv "In" EFlowPinActivationType.Default
            { node := nodeN EFlowSignalMode.Disabled, trace := [] }).node =
          { nodeN EFlowSignalMode.Disabled with
            InputRecords :=
              if quietEnv.UE_BUILD_SHIPPING then (nodeN EFlowSignalMode.Disabled).InputRecords
              else AddPinRecord (nodeN EFlowSignalMode.Disabled).InputRecords "In"
                ⟨quietEnv.AppCurrentTime, EFlowPinActivationType.Default⟩ } ∧
        (TriggerInput quietEnv "In" EFlowPinActivationType.Default
            { node := nodeN EFlowSignalMode.Disabled, trace := [] }).trace =
          [] ++
            (if quietEnv.WITH_EDITOR && quietEnv.bGraphInterfaceValid then
              [Event.OnInputTriggered
                (IndexOfByKey (nodeN EFlowSignalMode.Disabled).InputPins "In")]
            else []) ++
            (if quietEnv.bLogOnSignalDisabled then
              [Event.LogNote ("Node disabled while triggering input " ++ "In")]
            else [])) ∧
      ((∀ Pin ∈ (nodeN EFlowSignalMode.Disabled).InputPins, Pin.PinName ≠ "Bogus") ∧
        (TriggerInput quietEnv "Bogus" EFlowPinActivationType.Default
            { node := nodeN EFlowSignalMode.Disabled, trace := [] }).node =
          nodeN EFlowSignalMode.Disabled ∧
        (TriggerInput quietEnv "Bogus" EFlowPinActivationType.Default
            { node := nodeN EFlowSignalMode.Disabled, trace := [] }).trace =
          [] ++ (if quietEnv.UE_BUILD_SHIPPING then []
            else [Event.LogError ("Input Pin name " ++ "Bogus" ++ " invalid")])) :=
  have hIn := (TriggerInput_Disabled_frame quietEnv "In" EFlowPinActivationType.Default
    { node := nodeN EFlowSignalMode.Disabled, trace := [] } rfl).1
      ⟨{ PinName := "In" }, by decide, rfl⟩
  have hBogus := (TriggerInput_Disabled_frame quietEnv "Bogus" EFlowPinActivationType.Default
    { node := nodeN EFlowSignalMode.Disabled, trace := [] } rfl).2 (by decide)
  ⟨rfl, ⟨⟨{ PinName := "In" }, by decide, rfl⟩, hIn.1, hIn.2.2.2⟩, ⟨by decide, hBogus⟩⟩

/-! ## Claims on the recursive search -/

theorem mem_GetConnectedNodes_aux (Asset : UFlowAsset)
    (Connections : List (FName × FConnectedPin)) (Found : Option FlowNode) :
    ∀ Result : List (Option FlowNode),
      Found ∈ Connections.foldl
          (fun Result Connection => SetEmplace Result (Asset.GetNode Connection.2.NodeGuid))
          Result →
        Found ∈ Result ∨
          ∃ Connection ∈ Connections, Found = Asset.GetNode Connection.2.NodeGuid := by
  induction Connections with
  | nil => intro Result h; exact Or.inl h
  | cons Head Rest ih =>
    intro Result h
    rw [List.foldl_cons] at h
    rcases ih _ h with h1 | ⟨Connection, hmem, heq⟩
    · unfold SetEmplace at h1
      split at h1
      · exact Or.inl h1
      · rcases List.mem_append.mp h1 with h2 | h2
        · exact Or.inl h2
        · exact Or.inr ⟨Head, List.mem_cons_self _ _, List.mem_singleton.mp h2⟩
    · exact Or.inr ⟨Connection, List.mem_cons_of_mem _ hmem, heq⟩

/-- A node that `GetConnectedNodes` returns is a node of the graph. -/
theorem Holds_of_mem_GetConnectedNodes (Asset : UFlowAsset) (n t : FlowNode)
    (h : some t ∈ GetConnectedNodes Asset n) : Asset.Holds t := by
  rcases mem_GetConnectedNodes_aux Asset n.Connections (some t) [] h with h1 | ⟨c, -, heq⟩
  · exact absurd h1 (List.not_mem_nil _)
  · exact ⟨c.2.NodeGuid, heq.symm⟩

/-- The body of the search on a non-null node, with the accumulator after
the class test named `Start`. -/
theorem RecursiveFindNodesByClass_some (Asset : UFlowAsset) (fuel : Nat) (Node : FlowNode)
    (Class : UClass) (Depth : Nat) (OutNodes : List FlowNode) :
    ∃ Start : List FlowNode,
      Start = (if Node.Class = Class then AddUnique OutNodes Node else OutNodes) ∧
      RecursiveFindNodesByClass Asset (fuel + 1) (some Node) Class Depth OutNodes =
        if Start.length = Depth then some Start
        else
          (GetConnectedNodes Asset Node).foldl
            (fun Out ConnectedNode =>
              match Out with
              | some OutNodes2 =>
                RecursiveFindNodesByClass Asset fuel ConnectedNode Class Depth OutNodes2
              | none => none)
            (some Start) :=
  ⟨_, rfl, by rw [RecursiveFindNodesByClass]⟩

/-- Once the fuel has run out below, the loop over the connected nodes gives
no result. -/
theorem searchLoop_none (Asset : UFlowAsset) (fuel : Nat) (Class : UClass) (Depth : Nat)
    (Children : List (Option FlowNode)) :
    Children.foldl
        (fun Out ConnectedNode =>
          match Out with
          | some OutNodes2 =>
            RecursiveFindNodesByClass Asset fuel ConnectedNode Class Depth OutNodes2
          | none => none)
        none = none := by
  induction Children with
  | nil => rfl
  | cons _ _ ih => rw [List.foldl_cons]; exact ih

/-- On a graph without cycle the search returns: fuel above the rank of the
start node is enough. -/
theorem RecursiveFindNodesByClass_returns (Asset : UFlowAsset) (rank : FlowNode → Nat)
    (hrank : Asset.RankedBy rank) (Class : UClass) (Depth : Nat) :
    ∀ (fuel : Nat) (Node : FlowNode), Asset.Holds Node → rank Node + 2 ≤ fuel →
      ∀ OutNodes : List FlowNode, ∃ Found : List FlowNode,
        RecursiveFindNodesByClass Asset fuel (some Node) Class Depth OutNodes = some Found := by
  intro fuel
  induction fuel with
  | zero => intro Node _ hfuel; omega
  | succ fuel ih =>
    intro Node hNode hfuel OutNodes
    obtain ⟨Start, -, heq⟩ :=
      RecursiveFindNodesByClass_some Asset fuel Node Class Depth OutNodes
    rw [heq]
    by_cases hlen : Start.length = Depth
    · rw [if_pos hlen]
      exact ⟨_, rfl⟩
    · rw [if_neg hlen]
      have hloop : ∀ (Children : List (Option FlowNode)),
          (∀ c ∈ Children, c ∈ GetConnectedNodes Asset Node) →
          ∀ Out : List FlowNode, ∃ Found : List FlowNode,
            Children.foldl
              (fun Out ConnectedNode =>
                match Out with
                | some OutNodes2 =>
                  RecursiveFindNodesByClass Asset fuel ConnectedNode Class Depth OutNodes2
                | none => none)
              (some Out) = some Found := by
        intro Children
        induction Children with
        | nil => intro _ Out; exact ⟨Out, rfl⟩
        | cons Child Rest ihc =>
          intro hsub Out
          have hChild := hsub Child (List.mem_cons_self _ _)
          have hRest := ihc (fun c hc => hsub c (List.mem_cons_of_mem _ hc))
          rw [List.foldl_cons]
          cases Child with
          | none =>
            obtain ⟨f, rfl⟩ : ∃ f, fuel = f + 1 := ⟨fuel - 1, by omega⟩
            simp only [RecursiveFindNodesByClass]
            exact hRest Out
          | some t =>
            have hlt := hrank Node t hNode hChild
            obtain ⟨Found, hFound⟩ :=
              ih t (Holds_of_mem_GetConnectedNodes Asset Node t hChild) (by omega) Out
            simp only [hFound]
            exact hRest Found
      exact hloop _ (fun _ h => h) _

/-- More fuel does not change what the search returns. -/
theorem RecursiveFindNodesByClass_fuel_succ (Asset : UFlowAsset) (Class : UClass)
    (Depth : Nat) :
    ∀ (fuel : Nat) (Node : Option FlowNode) (OutNodes Found : List FlowNode),
      RecursiveFindNodesByClass Asset fuel Node Class Depth OutNodes = some Found →
        RecursiveFindNodesByClass Asset (fuel + 1) Node Class Depth OutNodes = some Found := by
  intro fuel
  induction fuel with
  | zero => intro Node OutNodes Found h; simp [RecursiveFindNodesByClass] at h
  | succ fuel ih =>
    intro Node OutNodes Found h
    cases Node with
    | none =>
      simp only [RecursiveFindNodesByClass] at h ⊢
      exact h
    | some Node =>
      obtain ⟨Start, hStart, heq⟩ :=
        RecursiveFindNodesByClass_some Asset fuel Node Class Depth OutNodes
      obtain ⟨Start2, hStart2, heq2⟩ :=
        RecursiveFindNodesByClass_some Asset (fuel + 1) Node Class Depth OutNodes
      rw [← hStart] at hStart2
      subst hStart2
      rw [heq] at h
      rw [heq2]
      by_cases hlen : Start2.length = Depth
      · rw [if_pos hlen] at h ⊢
        exact h
      · rw [if_neg hlen] at h ⊢
        clear heq heq2 hStart hlen
        revert h
        generalize GetConnectedNodes Asset Node = Children
        induction Children generalizing Start2 with
        | nil => intro h; exact h
        | cons Child Rest ihc =>
          intro h
          rw [List.foldl_cons] at h ⊢
          cases hstep : RecursiveFindNodesByClass Asset fuel Child Class Depth Start2 with
          | none =>
            simp only [hstep, searchLoop_none] at h
            exact absurd h (by simp)
          | some Mid =>
            simp only [hstep] at h
            simp only [ih Child Start2 Mid hstep]
            exact ihc Mid h

theorem RecursiveFindNodesByClass_fuel_add (Asset : UFlowAsset) (Class : UClass) (Depth : Nat)
    (fuel : Nat) (Node : Option FlowNode) (OutNodes Found : List FlowNode)
    (h : RecursiveFindNodesByClass Asset fuel Node Class Depth OutNodes = some Found)
    (more : Nat) :
    RecursiveFindNodesByClass Asset (fuel + more) Node Class Depth OutNodes = some Found := by
  induction more with
  | zero => exact h
  | succ more ih =>
    exact RecursiveFindNodesByClass_fuel_succ Asset Class Depth (fuel + more) Node OutNodes
      Found ih

theorem AddUnique_invariant (Class : UClass) (OutNodes : List FlowNode) (Node : FlowNode)
    (hclass : Node.Class = Class) (hnodup : OutNodes.Nodup)
    (hall : ∀ n ∈ OutNodes, n.Class = Class) :
    (AddUnique OutNodes Node).Nodup ∧ ∀ n ∈ AddUnique OutNodes Node, n.Class = Class := by
  unfold AddUnique
  split
  · exact ⟨hnodup, hall⟩
  · rename_i hnot
    refine ⟨?_, ?_⟩
    · rw [List.nodup_append]
      refine ⟨hnodup, List.nodup_singleton _, ?_⟩
      intro a ha hb
      rw [List.mem_singleton] at hb
      exact hnot (hb ▸ ha)
    · intro n hn
      rcases List.mem_append.mp hn with h | h
      · exact hall n h
      · rw [List.mem_singleton.mp h]
        exact hclass

/-- What holds of the accumulator on every return: if it was free of
duplicates and held only nodes of the class, it still is and does. -/
theorem RecursiveFindNodesByClass_sound (Asset : UFlowAsset) (Class : UClass) (Depth : Nat) :
    ∀ (fuel : Nat) (Node : Option FlowNode) (OutNodes Found : List FlowNode),
      RecursiveFindNodesByClass Asset fuel Node Class Depth OutNodes = some Found →
      OutNodes.Nodup → (∀ n ∈ OutNodes, n.Class = Class) →
        Found.Nodup ∧ ∀ n ∈ Found, n.Class = Class := by
  intro fuel
  induction fuel with
  | zero => intro Node OutNodes Found h; simp [RecursiveFindNodesByClass] at h
  | succ fuel ih =>
    intro Node OutNodes Found h hnodup hall
    cases Node with
    | none =>
      simp only [RecursiveFindNodesByClass, Option.some.injEq] at h
      subst h
      exact ⟨hnodup, hall⟩
    | some Node =>
      obtain ⟨Start, hStart, heq⟩ :=
        RecursiveFindNodesByClass_some Asset fuel Node Class Depth OutNodes
      have hS : Start.Nodup ∧ ∀ n ∈ Start, n.Class = Class := by
        rw [hStart]
        split
        · rename_i hclass
          exact AddUnique_invariant Class OutNodes Node hclass hnodup hall
        · exact ⟨hnodup, hall⟩
      rw [heq] at h
      by_cases hlen : Start.length = Depth
      · rw [if_pos hlen, Option.some.injEq] at h
        subst h
        exact hS
      · rw [if_neg hlen] at h
        clear heq hStart hlen
        revert h
        generalize GetConnectedNodes Asset Node = Children
        induction Children generalizing Start with
        | nil =>
          intro h
          simp only [List.foldl_nil, Option.some.injEq] at h
          subst h
          exact hS
        | cons Child Rest ihc =>
          intro h
          rw [List.foldl_cons] at h
          cases hstep : RecursiveFindNodesByClass Asset fuel Child Class Depth Start with
          | none =>
            simp only [hstep, searchLoop_none] at h
            exact absurd h (by simp)
          | some Mid =>
            simp only [hstep] at h
            exact ihc Mid (ih Child Start Mid hstep hS.1 hS.2) h

/-- On the graph of two nodes connected in a cycle, with no node of the class
looked for, the search does not return, whatever the fuel. -/
theorem RecursiveFindNodesByClass_cycle (fuel : Nat) :
    RecursiveFindNodesByClass cycleAsset fuel (some (linkNode 1 2)) 1 1 [] = none ∧
      RecursiveFindNodesByClass cycleAsset fuel (some (linkNode 2 1)) 1 1 [] = none := by
  induction fuel with
  | zero => exact ⟨rfl, rfl⟩
  | succ fuel ih =>
    have h12 : GetConnectedNodes cycleAsset (linkNode 1 2) = [some (linkNode 2 1)] := by decide
    have h21 : GetConnectedNodes cycleAsset (linkNode 2 1) = [some (linkNode 1 2)] := by decide
    have hc12 : ¬ (linkNode 1 2).Class = 1 := by decide
    have hc21 : ¬ (linkNode 2 1).Class = 1 := by decide
    constructor
    · obtain ⟨Start, hStart, heq⟩ :=
        RecursiveFindNodesByClass_some cycleAsset fuel (linkNode 1 2) 1 1 []
      rw [if_neg hc12] at hStart
      subst hStart
      rw [heq, h12]
      simp [ih.2]
    · obtain ⟨Start, hStart, heq⟩ :=
        RecursiveFindNodesByClass_some cycleAsset fuel (linkNode 2 1) 1 1 []
      rw [if_neg hc21] at hStart
      subst hStart
      rw [heq, h21]
      simp [ih.1]

theorem forkAsset_Holds (n : FlowNode) (h : forkAsset.Holds n) :
    n = forkNode ∨ n = leafNode 2 1 ∨ n = leafNode 3 1 := by
  obtain ⟨Guid, hG⟩ := h
  unfold UFlowAsset.GetNode forkAsset at hG
  by_cases h1 : Guid = 1
  · subst h1
    simp [List.lookup] at hG
    exact Or.inl hG.symm
  · by_cases h2 : Guid = 2
    · subst h2
      simp [List.lookup] at hG
      exact Or.inr (Or.inl hG.symm)
    · by_cases h3 : Guid = 3
      · subst h3
        simp [List.lookup] at hG
        exact Or.inr (Or.inr hG.symm)
      · have e1 : (Guid == 1) = false := by simpa using h1
        have e2 : (Guid == 2) = false := by simpa using h2
        have e3 : (Guid == 3) = false := by simpa using h3
        simp [List.lookup, e1, e2, e3] at hG

/-- The sample graph `forkAsset` has no cycle: `forkRank` goes down along
its connections. -/
theorem forkAsset_RankedBy : forkAsset.RankedBy forkRank := by
  intro n t hn ht
  rcases forkAsset_Holds n hn with rfl | rfl | rfl
  · have hch : GetConnectedNodes forkAsset forkNode =
        [some (leafNode 2 1), some (leafNode 3 1)] := by decide
    rw [hch] at ht
    simp only [List.mem_cons, Option.some.injEq, List.mem_singleton, List.not_mem_nil,
      or_false] at ht
    rcases ht with rfl | rfl <;> decide
  · have hch : GetConnectedNodes forkAsset (leafNode 2 1) = [] := by decide
    rw [hch] at ht
    exact absurd ht (List.not_mem_nil _)
  · have hch : GetConnectedNodes forkAsset (leafNode 3 1) = [] := by decide
    rw [hch] at ht
    exact absurd ht (List.not_mem_nil _)

/-- C18, at the failing input: on the acyclic graph `forkAsset`, from the
node `forkNode` of class 0 with the empty accumulator, class 1 and limit 1, the
search returns, for every fuel that lets it return, the accumulator with both
leaves, two entries where the limit is one: the test `OutNodes.Num() == Depth`
ends the call on the first leaf only, and the loop of the caller goes on to
the second leaf. -/
theorem RecursiveFindNodesByClass_over_limit (more : Nat) :
    RecursiveFindNodesByClass forkAsset (2 + more) (some forkNode) 1 1 [] =
      some [leafNode 2 1, leafNode 3 1] :=
  RecursiveFindNodesByClass_fuel_add forkAsset 1 1 2 (some forkNode) [] _ (by decide) more

/-- C19, as the claim states it, fails: on the finite graph `cycleAsset`, two
nodes of class 0 connected in a cycle, the search for class 1 with limit 1 from
the first node does not return, whatever the fuel. -/
theorem RecursiveFindNodesByClass_cycle_counterexample :
    cycleAsset.GetNode 1 = some (linkNode 1 2) ∧
      ¬ ∃ (fuel : Nat) (Found : List FlowNode),
        RecursiveFindNodesByClass cycleAsset fuel (some (linkNode 1 2)) 1 1 [] = some Found := by
  refine ⟨by decide, ?_⟩
  rintro ⟨fuel, Found, h⟩
  rw [(RecursiveFindNodesByClass_cycle fuel).1] at h
  exact Option.noConfusion h

/-- C19, amended: on a finite graph without cycle (some rank goes down along
every connection between nodes of the graph), for every start node of the
graph, class, limit and accumulator, the search terminates: there is one result
that it returns for every fuel above the rank of the start node. -/
theorem RecursiveFindNodesByClass_terminates (Asset : UFlowAsset) (rank : FlowNode → Nat)
    (Start : FlowNode) (Class : UClass) (Depth : Nat) (OutNodes : List FlowNode)
    (hrank : Asset.RankedBy rank) (hstart : Asset.Holds Start) :
    ∃ Found : List FlowNode, ∀ fuel : Nat, rank Start + 2 ≤ fuel →
      RecursiveFindNodesByClass Asset fuel (some Start) Class Depth OutNodes = some Found := by
  obtain ⟨Found, hFound⟩ := RecursiveFindNodesByClass_returns Asset rank hrank Class Depth
    (rank Start + 2) Start hstart (Nat.le_refl _) OutNodes
  refine ⟨Found, fun fuel hfuel => ?_⟩
  obtain ⟨more, rfl⟩ : ∃ more, fuel = rank Start + 2 + more := ⟨fuel - (rank Start + 2), by omega⟩
  exact RecursiveFindNodesByClass_fuel_add Asset Class Depth _ (some Start) OutNodes Found
    hFound more

/-- Witness for C19 amended: the acyclic sample graph `forkAsset`, searched
from `forkNode`. -/
theorem RecursiveFindNodesByClass_terminates_witness :
    forkAsset.RankedBy forkRank ∧ forkAsset.Holds forkNode ∧
      ∃ Found : List FlowNode, ∀ fuel : Nat, forkRank forkNode + 2 ≤ fuel →
        RecursiveFindNodesByClass forkAsset fuel (some forkNode) 1 1 [] = some Found :=
  ⟨forkAsset_RankedBy, ⟨1, by decide⟩,
    RecursiveFindNodesByClass_terminates forkAsset forkRank forkNode 1 1 []
      forkAsset_RankedBy ⟨1, by decide⟩⟩

end FlowGraph
